import Mathlib

/-!
The functional-logger audit-log store: a verification development.

A shallow embedding of the parts of `IntrntSrfr/functional-logger` that the
audit-log store relies on, followed by theorems about them.

* `kvstore/structs.go`: `DiscordMessage`, `NewDiscordMessage`, `GetAttachment`, `ByID`.
* `bot/events.go`: `guildBanAddHandler`, `guildMemberAddHandler`,
  `guildMemberRemoveHandler`, `messageCreateHandler`, `messageDeleteHandler`.
* `main.go`: `MessageUpdateHandler`, `GuildMemberAddHandler` with its snowflake
  decoding, and the message key of the handlers.
* `database/models.go`: `Guild`.

Go strings are embedded as Lean `String`s (a Go string that is valid UTF-8, which
is what the JSON decoder of the gateway library produces); Go `int`/`int64` are
embedded as `Int`, with explicit wrapping where an operation can leave the
64-bit range.
-/

namespace FunctionalLogger

/-! ## Data model (`discordgo` types, restricted to the fields the program reads) -/

/-- A Go byte slice. -/
abbrev Bytes := List UInt8

/-- The fields of `discordgo.MessageAttachment` read by the program. -/
structure MessageAttachment where
  ID : String
  URL : String
  Filename : String
  Size : Int
deriving DecidableEq, Repr

/-- The fields of `discordgo.User` read by the program. -/
structure User where
  ID : String
  Username : String
  Discriminator : String
  Avatar : String
  Bot : Bool
deriving DecidableEq, Repr

/-- The fields of `discordgo.Message` read by the program. -/
structure Message where
  ID : String
  ChannelID : String
  GuildID : String
  Content : String
  Author : User
  Attachments : List MessageAttachment
deriving DecidableEq, Repr

/-- The record of `kvstore/structs.go`: a message with the fetched attachment payloads. -/
structure DiscordMessage where
  Message : Message
  Attachments : List Bytes
deriving DecidableEq, Repr

/-! ## `kvstore/structs.go`: fetching attachments -/

/-- The two library calls `GetAttachment` makes, over an explicit world state `σ`:
`get` is `http.Get` (a response handle or an error), `readAll` is `io.ReadAll` on the
response body (the bytes read so far together with an optional error), and `close` is the
deferred `res.Body.Close()`. -/
structure Http (σ ρ ε : Type) where
  get : String → σ → Except ε ρ × σ
  readAll : ρ → σ → (Bytes × Option ε) × σ
  close : ρ → σ → σ

/-- The function `GetAttachment(url) ([]byte, error)`: the Go result pair is kept as a pair,
`nil` bytes being the empty list. -/
def GetAttachment {σ ρ ε : Type} (h : Http σ ρ ε) (url : String) (w : σ) :
    (Bytes × Option ε) × σ :=
  match h.get url w with
  | (Except.error err, w1) => (([], some err), w1)
  | (Except.ok res, w1) =>
    let r := h.readAll res w1
    (r.1, h.close res r.2)

/-- One iteration of the loop `for _, a := range msg.Attachments` of `NewDiscordMessage`,
on the pair of `m.Attachments` and the world. -/
def attachStep {σ ρ ε : Type} (h : Http σ ρ ε) (maxSize : Int)
    (st : List Bytes × σ) (a : MessageAttachment) : List Bytes × σ :=
  if a.Size > maxSize then st
  else
    match GetAttachment h a.URL st.2 with
    | ((_, some _), w1) => (st.1, w1)
    | ((data, none), w1) => (st.1 ++ [data], w1)

/-- The constructor `NewDiscordMessage(msg, maxSize)`. -/
def NewDiscordMessage {σ ρ ε : Type} (h : Http σ ρ ε) (msg : Message) (maxSize : Int)
    (w : σ) : DiscordMessage × σ :=
  let r := msg.Attachments.foldl (attachStep h maxSize) ([], w)
  ({ Message := msg, Attachments := r.1 }, r.2)

/-- What the specification says the attachment sequence is: the payloads of the attachments
whose fetch succeeded, in order, each fetch made in the world the previous one left. -/
def fetchedPayloads {σ ρ ε : Type} (h : Http σ ρ ε) :
    List MessageAttachment → σ → List Bytes × σ
  | [], w => ([], w)
  | a :: rest, w =>
    match GetAttachment h a.URL w with
    | ((_, some _), w1) => fetchedPayloads h rest w1
    | ((data, none), w1) => ((data :: (fetchedPayloads h rest w1).1), (fetchedPayloads h rest w1).2)

/-- The message with the attachments declared larger than `maxSize` removed. -/
def withoutOversized (msg : Message) (maxSize : Int) : Message :=
  { msg with Attachments := msg.Attachments.filter (fun a => decide (a.Size ≤ maxSize)) }

/-- A small network used to evaluate the definitions: the world counts the requests made,
URL `"ok"` answers with two bytes, URL `"cut"` breaks off while the body is read, and every
other URL cannot be reached. -/
def demoHttp : Http Nat String String where
  get := fun url n => if url = "ok" ∨ url = "cut" then (Except.ok url, n + 1)
    else (Except.error "unreachable", n + 1)
  readAll := fun res n => if res = "ok" then (([1, 2], none), n) else (([1], some "reset"), n)
  close := fun _ n => n

/-- Build an attachment with the given URL and declared size. -/
def demoAttachment (url : String) (size : Int) : MessageAttachment :=
  { ID := "1", URL := url, Filename := "f.png", Size := size }

/-- Build a message with the given identifier, content and attachments. -/
def demoMessage (id content : String) (atts : List MessageAttachment) : Message :=
  { ID := id, ChannelID := "1", GuildID := "1", Content := content,
    Author := { ID := "42", Username := "u", Discriminator := "0001", Avatar := "", Bot := false },
    Attachments := atts }

/-! ## `kvstore/structs.go`: `ByID`, and `sort.Sort` -/

/-- Go's `<` on strings, on the characters of the two strings: the first position where
they differ decides, and a proper prefix is smaller. Go compares the bytes; on valid UTF-8
that is the order of the code points compared here. -/
def lexLess : List Char → List Char → Bool
  | [], [] => false
  | [], _ :: _ => true
  | _ :: _, [] => false
  | a :: as, b :: bs =>
    if a.toNat < b.toNat then true
    else if b.toNat < a.toNat then false
    else lexLess as bs

/-- Go's `s < t` on strings. -/
def stringLess (s t : String) : Bool := lexLess s.data t.data

/-- The method `ByID.Len`. -/
def ByID.Len (m : List DiscordMessage) : Nat := m.length

/-- The method `ByID.Less(i, j)`: `m[i].Message.ID < m[j].Message.ID`; `none` is the
index-out-of-range panic. -/
def ByID.Less (m : List DiscordMessage) (i j : Nat) : Option Bool :=
  match m[i]?, m[j]? with
  | some a, some b => some (stringLess a.Message.ID b.Message.ID)
  | _, _ => none

/-- The method `ByID.Swap(i, j)`: `m[i], m[j] = m[j], m[i]`; `none` is the
index-out-of-range panic. -/
def ByID.Swap (m : List DiscordMessage) (i j : Nat) : Option (List DiscordMessage) :=
  match m[i]?, m[j]? with
  | some a, some b => some ((m.set i b).set j a)
  | _, _ => none

/-- Go's `sort.Interface`, over the type `δ` of the data being sorted. -/
structure Interface (δ : Type) where
  Len : δ → Nat
  Less : δ → Nat → Nat → Option Bool
  Swap : δ → Nat → Nat → Option δ

/-- The type `ByID` as a `sort.Interface`. -/
def ByID.sortInterface : Interface (List DiscordMessage) :=
  { Len := ByID.Len, Less := ByID.Less, Swap := ByID.Swap }

/-- The inner loop of the library's `insertionSort`:
`for j := i; j > a && data.Less(j, j-1); j-- { data.Swap(j, j-1) }`, started at `j`. -/
def sinkLoop {δ : Type} (I : Interface δ) (a : Nat) : Nat → δ → Option δ
  | 0, d => some d
  | j + 1, d =>
    if j + 1 > a then
      match I.Less d (j + 1) j with
      | none => none
      | some false => some d
      | some true =>
        match I.Swap d (j + 1) j with
        | none => none
        | some d1 => sinkLoop I a j d1
    else some d

/-- The library's `insertionSort(data, a, b)`: `for i := a + 1; i < b; i++` around the inner
loop. -/
def insertionSort {δ : Type} (I : Interface δ) (d : δ) (a b : Nat) : Option δ :=
  (List.range' (a + 1) (b - (a + 1))).foldlM (fun d1 i => sinkLoop I a i d1) d

/-- The library's `sort.Sort(data)`, on its insertion-sort path, the one the library takes for
up to twelve elements. For longer inputs the library switches to a pattern-defeating
quicksort, whose result is again a permutation ordered by `Less`, and so the same list
whenever no two elements compare equal. -/
def sortSort {δ : Type} (I : Interface δ) (d : δ) : Option δ :=
  if I.Len d ≤ 1 then some d else insertionSort I d 0 (I.Len d)

/-- The value of a character as a decimal digit. -/
def digitValue (c : Char) : Nat := c.toNat - 48

/-- The number a string of decimal digits denotes. -/
def decimalValue (s : String) : Nat :=
  s.data.foldl (fun n c => 10 * n + digitValue c) 0

/-- The string consists of decimal digits only. -/
def isDigitString (s : String) : Bool := s.data.all Char.isDigit

/-- A stored record with the given message identifier and content, and no attachments. -/
def demoRecord (id content : String) : DiscordMessage :=
  { Message := demoMessage id content [], Attachments := [] }

/-- The order `sort.Sort` leaves a reversed prefix in: `a` is not before `b` by `ByID.Less`. -/
def geID (a b : DiscordMessage) : Prop := stringLess a.Message.ID b.Message.ID = false

instance geID.decidable : DecidableRel geID :=
  fun a b => decEq (stringLess a.Message.ID b.Message.ID) false

/-! ## `bot/events.go`: `guildBanAddHandler` -/

/-- The fields of `discordgo.Channel` read by the program. -/
structure Channel where
  ID : String
  Name : String
  GuildID : String
deriving DecidableEq, Repr

/-- The fields of `discordgo.Guild` read by the program. -/
structure Guild where
  ID : String
  Name : String
  Icon : String
  Channels : List Channel
deriving DecidableEq, Repr

/-- The event `discordgo.GuildBanAdd`. -/
structure GuildBanAdd where
  User : User
  GuildID : String
deriving DecidableEq, Repr

/-- The type `discordgo.MessageEmbedField`. -/
structure MessageEmbedField where
  Name : String
  Value : String
  Inline : Bool := false
deriving DecidableEq, Repr

/-- The fields of `discordgo.MessageEmbed` the handlers set (`Thumbnail` and `Footer` by
the strings they hold). -/
structure MessageEmbed where
  Color : Int
  Title : String
  ThumbnailURL : String
  Fields : List MessageEmbedField
  Timestamp : String
  FooterIconURL : String
  FooterText : String
deriving DecidableEq, Repr

/-- The type `discordgo.File`; a `nil` reader is `none`, and a reader is the bytes it yields. -/
structure File where
  Name : String
  Reader : Option Bytes
deriving DecidableEq, Repr

/-- The errors of the key-value store: `badger.ErrKeyNotFound`, or any other error. -/
inductive StoreError where
  | ErrKeyNotFound
  | other (text : String)
deriving DecidableEq, Repr

/-- The calls a handler makes on the session to send something to a channel. -/
inductive ApiCall where
  | ChannelMessageSendEmbed (channelID : String) (embed : MessageEmbed)
  | ChannelMessageSendComplex (channelID : String) (embed : MessageEmbed) (files : List File)
deriving DecidableEq, Repr

/-- What `guildBanAddHandler` reads from its `*Context` and from the libraries: the cached
guild (`c.s.State.Guild`), the error result of `c.b.store.GetMember` (the member itself is
not used), the result pair of `c.b.store.GetMessageLog`, the configured ban log channel
`c.gc.BanLog`, the colour constant `Red`, the formatted `time.Now()`, and the `discordgo`
helpers `User.Mention`, `User.String`, `User.AvatarURL` and `EndpointGuildIcon`. The store
is only read by the handler, so its two lookups are functions of their arguments. -/
structure Context where
  StateGuild : String → Except String Guild
  GetMember : String → String → Option StoreError
  GetMessageLog : String → String → String → List DiscordMessage × Option StoreError
  BanLog : String
  Red : Int
  now : String
  Mention : User → String
  UserString : User → String
  AvatarURL : User → String → String
  EndpointGuildIcon : String → String → String

/-- The embed `guildBanAddHandler` starts from. -/
def banEmbed (c : Context) (g : Guild) (m : GuildBanAdd) : MessageEmbed :=
  { Color := c.Red,
    Title := "User banned",
    ThumbnailURL := c.AvatarURL m.User "256",
    Fields := [
      { Name := "User", Value := c.Mention m.User ++ "\n" ++ c.UserString m.User },
      { Name := "ID", Value := m.User.ID }],
    Timestamp := c.now,
    FooterIconURL := c.EndpointGuildIcon g.ID g.Icon,
    FooterText := g.Name }

/-- The text `guildBanAddHandler` writes to `buf` for one channel: a header line, then for
each message of the sorted log its content and, when it had attachments, a flag line. -/
def banTranscript (c : Context) (m : GuildBanAdd) (ch : Channel)
    (chLog : List DiscordMessage) : String :=
  chLog.foldl
    (fun buf msg =>
      let str := "\nContent: " ++ msg.Message.Content ++ "\n"
      let str := if msg.Attachments.length > 0 then str ++ "Message had attachment\n" else str
      buf ++ str)
    ("Log for user: " ++ c.UserString m.User ++ " (" ++ m.User.ID ++ "); channel: " ++ ch.Name
      ++ " (" ++ ch.ID ++ ")\n")

/-- One iteration of the loop `for _, ch := range g.Channels` of `guildBanAddHandler`, on
the slice `files`; `none` is a panic inside `sort.Sort`. The transcript `buf` is built and
not used: the file is created with `Reader: nil`. -/
def banFilesStep (c : Context) (g : Guild) (m : GuildBanAdd) (files : List File)
    (ch : Channel) : Option (List File) :=
  let r := c.GetMessageLog g.ID ch.ID m.User.ID
  if r.2.isSome || r.1.length == 0 then some files
  else
    match sortSort ByID.sortInterface r.1 with
    | none => none
    | some chLog =>
      let _buf := banTranscript c m ch chLog
      some (files ++ [{ Name := g.ID ++ "_" ++ ch.ID ++ "_" ++ m.User.ID ++ ".txt",
                        Reader := none }])

/-- The handler `guildBanAddHandler(c, m)`: the calls it makes to send the log entry, or
`none` for a panic. -/
def guildBanAddHandler (c : Context) (m : GuildBanAdd) : Option (List ApiCall) :=
  match c.StateGuild m.GuildID with
  | Except.error _ => some []
  | Except.ok g =>
    let embed := banEmbed c g m
    match c.GetMember m.GuildID m.User.ID with
    | some err =>
      if err ≠ StoreError.ErrKeyNotFound then some []
      else
        some [ApiCall.ChannelMessageSendEmbed c.BanLog
          { embed with Title := embed.Title ++ " - Hackban" }]
    | none =>
      match g.Channels.foldlM (banFilesStep c g m) [] with
      | none => none
      | some files =>
        if files.length == 0 then
          some [ApiCall.ChannelMessageSendEmbed c.BanLog
            { embed with Fields := embed.Fields ++
                [{ Name := "24h user log", Value := "No history" }] }]
        else
          some [ApiCall.ChannelMessageSendComplex c.BanLog embed files]

/-- The file `guildBanAddHandler` appends for a channel. -/
def banFile (g : Guild) (m : GuildBanAdd) (ch : Channel) : File :=
  { Name := g.ID ++ "_" ++ ch.ID ++ "_" ++ m.User.ID ++ ".txt", Reader := none }

/-- The channel's log for the banned user is returned without error and is non-empty. -/
def hasHistory (c : Context) (g : Guild) (m : GuildBanAdd) (ch : Channel) : Bool :=
  (c.GetMessageLog g.ID ch.ID m.User.ID).2.isNone &&
    decide ((c.GetMessageLog g.ID ch.ID m.User.ID).1 ≠ [])

/-- The context whose cached guilds have lost the channels whose scan fails. -/
def withoutFailingChannels (c : Context) (m : GuildBanAdd) : Context :=
  { c with StateGuild := fun id =>
      match c.StateGuild id with
      | Except.error e => Except.error e
      | Except.ok g =>
        let chs := g.Channels.filter (fun ch => (c.GetMessageLog g.ID ch.ID m.User.ID).2.isNone)
        Except.ok { g with Channels := chs } }

/-- A guild with three channels for evaluating the ban handler. -/
def demoGuild : Guild :=
  { ID := "1", Name := "guild", Icon := "icon",
    Channels := [{ ID := "1", Name := "general", GuildID := "1" },
                 { ID := "2", Name := "quiet", GuildID := "1" },
                 { ID := "3", Name := "broken", GuildID := "1" },
                 { ID := "4", Name := "memes", GuildID := "1" }] }

/-- A context for evaluating the ban handler: user 42 is a known member with two messages
in channel 1 and one in channel 4, channel 2 has no messages, the scan of channel 3 fails;
user 7 was never a member. -/
def demoContext : Context :=
  { StateGuild := fun id => if id = "1" then Except.ok demoGuild else Except.error "unknown guild",
    GetMember := fun _ u => if u = "42" then none else some StoreError.ErrKeyNotFound,
    GetMessageLog := fun _ ch _ =>
      if ch = "1" then ([demoRecord "300" "later", demoRecord "100" "earlier"], none)
      else if ch = "3" then ([], some (StoreError.other "io"))
      else if ch = "4" then ([demoRecord "200" "hello"], none)
      else ([], none),
    BanLog := "900",
    Red := 13107200,
    now := "2024-01-01T00:00:00Z",
    Mention := fun u => "<@" ++ u.ID ++ ">",
    UserString := fun u => u.Username ++ "#" ++ u.Discriminator,
    AvatarURL := fun u _ => u.Avatar,
    EndpointGuildIcon := fun g i => g ++ "/" ++ i }

/-- The ban of user 42 in guild 1. -/
def demoBan : GuildBanAdd :=
  { User := { ID := "42", Username := "u", Discriminator := "0001", Avatar := "", Bot := false },
    GuildID := "1" }

/-! ## `main.go`: the message key, and the snowflake decoding of `GuildMemberAddHandler` -/

/-- The key `fmt.Sprintf("%v:%v:%v", guildID, channelID, messageID)` the handlers of `main.go`
look messages up by. -/
def messageKey (guildID channelID messageID : String) : String :=
  guildID ++ ":" ++ channelID ++ ":" ++ messageID

/-- The prefix shared by the keys of one channel: guild, separator, channel, separator. -/
def channelPrefix (guildID channelID : String) : String :=
  guildID ++ ":" ++ channelID ++ ":"

/-- Go's `strings.HasPrefix(s, prefix)`. -/
def hasPrefix (s pre : String) : Bool := pre.data.isPrefixOf s.data

/-- The errors of `strconv`: `ErrSyntax` and `ErrRange` inside a `*NumError`. -/
inductive NumError where
  | ErrSyntax
  | ErrRange
deriving DecidableEq, Repr

/-- The helper `lower(c)` of `strconv`: `c | ('x' - 'X')`. -/
def lower (c : Nat) : Nat := c ||| 0x20

/-- The digit loop of `strconv.ParseUint`, `for _, c := range []byte(s)`, on the state `n`,
`underscores`: either an early return (value and error) or the final state. A character
outside ASCII takes the `default` branch, as each of its bytes does (`lower` leaves it
above `'z'`). Arithmetic is that of
`uint64`. -/
def ParseUint.loop (base0 : Bool) (base cutoff maxVal : Nat) :
    List Char → Nat → Bool → Except (Nat × NumError) (Nat × Bool)
  | [], n, underscores => Except.ok (n, underscores)
  | c :: cs, n, underscores =>
    if c.toNat = '_'.toNat ∧ base0 = true then ParseUint.loop base0 base cutoff maxVal cs n true
    else
      let d : Option Nat :=
        if '0'.toNat ≤ c.toNat ∧ c.toNat ≤ '9'.toNat then some (c.toNat - '0'.toNat)
        else if 'a'.toNat ≤ lower c.toNat ∧ lower c.toNat ≤ 'z'.toNat then
          some (lower c.toNat - 'a'.toNat + 10)
        else none
      match d with
      | none => Except.error (0, NumError.ErrSyntax)
      | some d =>
        if d ≥ base then Except.error (0, NumError.ErrSyntax)
        else if n ≥ cutoff then Except.error (maxVal, NumError.ErrRange)
        else
          let n0 := (n * base) % 2 ^ 64
          let n1 := (n0 + d) % 2 ^ 64
          if n1 < n0 ∨ n1 > maxVal then Except.error (maxVal, NumError.ErrRange)
          else ParseUint.loop base0 base cutoff maxVal cs n1 underscores

/-- The loop `for ; len(s) > 0; s = s[1:]` of `strconv.underscoreOK`, on the previous
character class `i` (`'^'`, `'0'`, `'_'` or `'!'`). -/
def underscoreOK.loop (hex : Bool) : List Char → Char → Bool
  | [], i => i ≠ '_'
  | c :: cs, i =>
    if ('0'.toNat ≤ c.toNat ∧ c.toNat ≤ '9'.toNat) ∨
        (hex = true ∧ 'a'.toNat ≤ lower c.toNat ∧ lower c.toNat ≤ 'f'.toNat) then
      underscoreOK.loop hex cs '0'
    else if c.toNat = '_'.toNat then
      if i ≠ '0' then false else underscoreOK.loop hex cs '_'
    else if i = '_' then false
    else underscoreOK.loop hex cs '!'

/-- The function `strconv.underscoreOK(s)`: underscores only between digits, or between a
base prefix and a digit. -/
def underscoreOK (s : List Char) : Bool :=
  let s := match s with
    | c :: cs => if c = '-' ∨ c = '+' then cs else s
    | [] => s
  match s with
  | c0 :: c1 :: cs =>
    if c0 = '0' ∧ (lower c1.toNat = 'b'.toNat ∨ lower c1.toNat = 'o'.toNat ∨
        lower c1.toNat = 'x'.toNat) then
      underscoreOK.loop (decide (lower c1.toNat = 'x'.toNat)) cs '0'
    else underscoreOK.loop false s '^'
  | _ => underscoreOK.loop false s '^'

/-- The function `strconv.ParseUint(s, base, bitSize)` for `base` 0 or 2 to 36 and `bitSize`
1 to 64 (other arguments are rejected by the library before any digit is read, and the
program passes 0 and 63): the Go result pair. -/
def ParseUint (s : List Char) (base bitSize : Nat) : Nat × Option NumError :=
  match s with
  | [] => (0, some NumError.ErrSyntax)
  | c0 :: rest =>
    let base0 := decide (base = 0)
    let pick : Nat × List Char :=
      if base = 0 then
        if c0 = '0' then
          match rest with
          | c1 :: c2 :: cs =>
            if lower c1.toNat = 'b'.toNat then (2, c2 :: cs)
            else if lower c1.toNat = 'o'.toNat then (8, c2 :: cs)
            else if lower c1.toNat = 'x'.toNat then (16, c2 :: cs)
            else (8, rest)
          | _ => (8, rest)
        else (10, s)
      else (base, s)
    let cutoff := (2 ^ 64 - 1) / pick.1 + 1
    let maxVal := (2 ^ bitSize % 2 ^ 64 + 2 ^ 64 - 1) % 2 ^ 64
    match ParseUint.loop base0 pick.1 cutoff maxVal pick.2 0 false with
    | Except.error (v, err) => (v, some err)
    | Except.ok (n, underscores) =>
      if underscores = true ∧ underscoreOK s = false then (0, some NumError.ErrSyntax)
      else (n, none)

/-- The function `strconv.ParseInt(s, base, bitSize)`, under the same restriction on `base`
and `bitSize`: the Go result pair. -/
def ParseInt (s : String) (base bitSize : Nat) : Int × Option NumError :=
  match s.data with
  | [] => (0, some NumError.ErrSyntax)
  | c0 :: rest =>
    let neg := decide (c0 = '-')
    let s1 := if c0 = '+' then rest else if c0 = '-' then rest else c0 :: rest
    let r := ParseUint s1 base bitSize
    if r.2 = some NumError.ErrSyntax then (0, some NumError.ErrSyntax)
    else
      let un := r.1
      let cutoff := 2 ^ (bitSize - 1)
      if neg = false ∧ un ≥ cutoff then (((cutoff - 1 : Nat) : Int), some NumError.ErrRange)
      else if neg = true ∧ un > cutoff then (-((cutoff : Nat) : Int), some NumError.ErrRange)
      else
        let n : Int := (un : Int)
        (if neg = true then -n else n, none)

/-- Reduce an integer to the range of `int64`, as Go's arithmetic does. -/
def wrapInt64 (x : Int) : Int := (x + 2 ^ 63) % 2 ^ 64 - 2 ^ 63

/-- Lines 141 to 150 of `GuildMemberAddHandler`: parse the user ID and compute
`((id >> 22) + 1420070400000) / 1000`, the Unix time in seconds of the instant `ts`; an
error is the handler's early `return`. -/
def snowflakeTime (userID : String) : Except NumError Int :=
  match ParseInt userID 0 63 with
  | (_, some err) => Except.error err
  | (id, none) => Except.ok (Int.tdiv (wrapInt64 ((id >>> (22 : Nat)) + 1420070400000)) 1000)

/-- The string is a decimal integer: an optional sign followed by one or more decimal
digits. -/
def isDecimalInteger (s : String) : Bool :=
  match s.data with
  | [] => false
  | c0 :: rest =>
    if c0 = '+' ∨ c0 = '-' then !rest.isEmpty && rest.all Char.isDigit
    else (c0 :: rest).all Char.isDigit

/-- The string without its leading sign, if it has one. -/
def unsignedPart (s : String) : List Char :=
  match s.data with
  | [] => []
  | c0 :: rest => if c0 = '+' ∨ c0 = '-' then rest else c0 :: rest

/-! ## `main.go`: `MessageUpdateHandler` -/

/-- Modelled from the spec: the persistent keyspace of the Message Record Store (package
`loggerdb`, which is not among the sources), as the list of its key and record pairs. -/
abbrev Store := List (String × DiscordMessage)

/-- Modelled from the spec: `loggerDB.GetMessage(key)` of the missing package `loggerdb`,
the `get` of the Message Record Store: the record stored under the key, and `NotFound`
if the key is absent. -/
def GetMessage (db : Store) (key : String) : Except StoreError DiscordMessage :=
  match db.lookup key with
  | some r => Except.ok r
  | none => Except.error StoreError.ErrKeyNotFound

/-- Modelled from the spec: `loggerDB.SetMessage(msg)` of the missing package `loggerdb`,
the `put` of the Message Record Store: it upserts the record of the message under the key
of its guild, channel and message identifiers. The payloads the store attaches to the
record are given by `fetch`. -/
def SetMessage (fetch : Message → List Bytes) (db : Store) (msg : Message) : Store :=
  (messageKey msg.GuildID msg.ChannelID msg.ID, { Message := msg, Attachments := fetch msg }) ::
    db.filter (fun e => e.1 != messageKey msg.GuildID msg.ChannelID msg.ID)

/-- The event `discordgo.MessageUpdate`, which embeds the edited message. -/
structure MessageUpdate where
  Message : Message
deriving DecidableEq, Repr

/-- What `MessageUpdateHandler` reads from the session, the package variables of `main.go`
and the libraries: the cached guild (`s.State.Guild`), the configured channel
`config.MsgEdit`, the formatted `time.Now()`, the `discordgo` helpers `User.Mention`,
`User.String` and `EndpointGuildIcon`, and the payloads the store attaches on `SetMessage`. -/
structure MainContext where
  StateGuild : String → Except String Guild
  MsgEdit : String
  now : String
  Mention : User → String
  UserString : User → String
  EndpointGuildIcon : String → String → String
  fetch : Message → List Bytes

/-- The constant `dColorLBlue` of `main.go`. -/
def dColorLBlue : Int := 6410733

/-- The handler `MessageUpdateHandler(s, m)` on the store: the store it leaves and the calls
it makes. A failure of `ChannelMessageSendEmbed` is only printed, and the handler goes on
to the write. -/
def MessageUpdateHandler (c : MainContext) (m : MessageUpdate) (db : Store) :
    Store × List ApiCall :=
  if m.Message.Content = "" then (db, [])
  else
    match c.StateGuild m.Message.GuildID with
    | Except.error _ => (db, [])
    | Except.ok g =>
      match GetMessage db (messageKey m.Message.GuildID m.Message.ChannelID m.Message.ID) with
      | Except.error _ => (db, [])
      | Except.ok oldm =>
        let oldmsg := oldm.Message
        if oldmsg.Content = m.Message.Content then (db, [])
        else
          let embed : MessageEmbed :=
            { Color := dColorLBlue,
              Title := "Message edited",
              ThumbnailURL := "",
              Fields := [
                { Name := "User",
                  Value := c.Mention oldmsg.Author ++ "\n" ++ c.UserString oldmsg.Author ++ "\n"
                    ++ oldmsg.Author.ID,
                  Inline := true },
                { Name := "Message ID", Value := m.Message.ID, Inline := true },
                { Name := "Channel",
                  Value := "<#" ++ m.Message.ChannelID ++ "> (" ++ m.Message.ChannelID ++ ")" },
                { Name := "Old content", Value := oldmsg.Content },
                { Name := "New content", Value := m.Message.Content }],
              Timestamp := c.now,
              FooterIconURL := c.EndpointGuildIcon g.ID g.Icon,
              FooterText := g.Name }
          let newmsg : Message := { oldm.Message with Content := m.Message.Content }
          (SetMessage c.fetch db newmsg, [ApiCall.ChannelMessageSendEmbed c.MsgEdit embed])

/-- A context for evaluating `MessageUpdateHandler`: guild 1 is cached. -/
def demoMain : MainContext :=
  { StateGuild := fun id => if id = "1" then Except.ok demoGuild else Except.error "unknown guild",
    MsgEdit := "901",
    now := "2024-01-01T00:00:00Z",
    Mention := fun u => "<@" ++ u.ID ++ ">",
    UserString := fun u => u.Username ++ "#" ++ u.Discriminator,
    EndpointGuildIcon := fun g i => g ++ "/" ++ i,
    fetch := fun _ => [] }

/-- The store holding the one message `(g=1, c=1, m=100, author=42, content="hi")`. -/
def demoStore : Store := SetMessage demoMain.fetch [] (demoMessage "100" "hi" [])

/-- The content of the record stored under a key, if there is one. -/
def storedContent (db : Store) (key : String) : Option String :=
  match GetMessage db key with
  | Except.ok r => some r.Message.Content
  | Except.error _ => none

/-- The embed a call sends. -/
def ApiCall.embed : ApiCall → MessageEmbed
  | ApiCall.ChannelMessageSendEmbed _ e => e
  | ApiCall.ChannelMessageSendComplex _ e _ => e

/-- The ban of user 7, who was never a member of guild 1. -/
def demoHackban : GuildBanAdd :=
  { User := { ID := "7", Username := "v", Discriminator := "0002", Avatar := "", Bot := false },
    GuildID := "1" }

/-! ## `bot/events.go`: `messageDeleteHandler` -/

/-- The event `discordgo.MessageDelete`, which embeds the deleted message (its identifiers). -/
structure MessageDelete where
  Message : Message
deriving DecidableEq, Repr

/-- What `messageDeleteHandler` reads from its `*Context` and from the libraries: the result
of `c.b.store.GetMessage`, the cached guild, the configured channel `c.gc.MsgDeleteLog`, the
colour constant `White`, the formatted `time.Now()` and the `discordgo` helpers. -/
structure DeleteContext where
  GetMessage : String → String → String → Except StoreError DiscordMessage
  StateGuild : String → Except String Guild
  MsgDeleteLog : String
  White : Int
  now : String
  Mention : User → String
  UserString : User → String
  EndpointGuildIcon : String → String → String

/-- The loop `for i, a := range msg.Message.Attachments` of `messageDeleteHandler`, from
index `i` on, on the slice `files`: each declared attachment gives a file named after it
whose reader is `msg.Attachments[i]`; `none` is the index-out-of-range panic. -/
def deleteFilesLoop (stored : List Bytes) :
    List MessageAttachment → Nat → List File → Option (List File)
  | [], _, files => some files
  | a :: rest, i, files =>
    match stored[i]? with
    | none => none
    | some data =>
      deleteFilesLoop stored rest (i + 1) (files ++ [{ Name := a.Filename, Reader := some data }])

/-- The handler `messageDeleteHandler(c, m)`: the calls it makes, or `none` for a panic. -/
def messageDeleteHandler (c : DeleteContext) (m : MessageDelete) : Option (List ApiCall) :=
  match c.GetMessage m.Message.GuildID m.Message.ChannelID m.Message.ID with
  | Except.error _ => some []
  | Except.ok msg =>
    match c.StateGuild m.Message.GuildID with
    | Except.error _ => some []
    | Except.ok g =>
      let embed : MessageEmbed :=
        { Color := c.White,
          Title := "Message deleted",
          ThumbnailURL := "",
          Fields := [
            { Name := "User",
              Value := c.Mention msg.Message.Author ++ "\n" ++ c.UserString msg.Message.Author
                ++ "\n" ++ msg.Message.Author.ID,
              Inline := true },
            { Name := "Message ID", Value := m.Message.ID, Inline := true },
            { Name := "Channel",
              Value := "<#" ++ m.Message.ChannelID ++ "> (" ++ m.Message.ChannelID ++ ")" }],
          Timestamp := c.now,
          FooterIconURL := c.EndpointGuildIcon g.ID g.Icon,
          FooterText := g.Name }
      let content : String × List File :=
        if msg.Message.Content = "" then ("No content", [])
        else if msg.Message.Content.utf8ByteSize > 1024 then
          ("Content too long, so it's put in the attached .txt file",
            [{ Name := "content.txt", Reader := some msg.Message.Content.toUTF8.data.toList }])
        else (msg.Message.Content, [])
      let embed := { embed with Fields := embed.Fields ++ [{ Name := "Content", Value := content.1 }] }
      let embed :=
        if msg.Message.Attachments.length > 0 then
          { embed with Fields := embed.Fields ++
              [{ Name := "Total attachments", Value := toString msg.Message.Attachments.length }] }
        else embed
      match deleteFilesLoop msg.Attachments msg.Message.Attachments 0 content.2 with
      | none => none
      | some files => some [ApiCall.ChannelMessageSendComplex c.MsgDeleteLog embed files]

/-- A context for evaluating `messageDeleteHandler`: the store answers every lookup with the
given record, and guild 1 is cached. -/
def demoDelete (record : DiscordMessage) : DeleteContext :=
  { GetMessage := fun _ _ _ => Except.ok record,
    StateGuild := fun id => if id = "1" then Except.ok demoGuild else Except.error "unknown guild",
    MsgDeleteLog := "902",
    White := 16777215,
    now := "2024-01-01T00:00:00Z",
    Mention := fun u => "<@" ++ u.ID ++ ">",
    UserString := fun u => u.Username ++ "#" ++ u.Discriminator,
    EndpointGuildIcon := fun g i => g ++ "/" ++ i }

/-- The files a list of calls sends, by name and content. -/
def sentFiles : Option (List ApiCall) → Option (List File)
  | some [ApiCall.ChannelMessageSendComplex _ _ files] => some files
  | some _ => some []
  | none => none

/-! ## `bot/events.go`: `messageCreateHandler` -/

/-- The type `database.Guild` of `database/models.go`: the log channels configured for a
guild. -/
structure database.Guild where
  ID : String
  MsgEditLog : String
  MsgDeleteLog : String
  BanLog : String
  UnbanLog : String
  JoinLog : String
  LeaveLog : String
deriving DecidableEq, Repr

/-- The event `discordgo.MessageCreate`, which embeds the new message. -/
structure MessageCreate where
  Message : Message
deriving DecidableEq, Repr

/-- Go's `unicode.IsSpace`: in Latin-1 the characters tab, newline, vertical tab, form feed,
carriage return, space, U+0085 and U+00A0; beyond it the `White_Space` table. -/
def IsSpace (c : Char) : Bool :=
  if c.toNat ≤ 0xFF then
    decide (c.toNat = 9 ∨ c.toNat = 10 ∨ c.toNat = 11 ∨ c.toNat = 12 ∨ c.toNat = 13 ∨
      c.toNat = 32 ∨ c.toNat = 0x85 ∨ c.toNat = 0xA0)
  else
    decide (c.toNat = 0x1680 ∨ (0x2000 ≤ c.toNat ∧ c.toNat ≤ 0x200a) ∨ c.toNat = 0x2028 ∨
      c.toNat = 0x2029 ∨ c.toNat = 0x202f ∨ c.toNat = 0x205f ∨ c.toNat = 0x3000)

/-- The scan of `strings.Fields`: `cur` holds the characters of the field being read. -/
def Fields.loop : List Char → List Char → List String
  | [], cur => if cur.isEmpty then [] else [String.mk cur]
  | c :: cs, cur =>
    if IsSpace c then
      if cur.isEmpty then Fields.loop cs [] else String.mk cur :: Fields.loop cs []
    else Fields.loop cs (cur ++ [c])

/-- Go's `strings.Fields(s)`: the maximal runs of characters that are not white space; the
empty list when `s` is empty or holds white space only. -/
def Fields (s : String) : List String := Fields.loop s.data []

/-- What `messageCreateHandler` does to the outside: the write to the message store, the
messages it sends, and the update of the guild configuration. -/
inductive CreateEffect where
  | SetMessage (record : DiscordMessage)
  | ChannelMessageSendEmbed (channelID : String) (embed : MessageEmbed)
  | ChannelMessageSend (channelID : String) (content : String)
  | UpdateGuild (id : String) (gc : database.Guild)
deriving DecidableEq, Repr

/-- What `messageCreateHandler` reads from its `*Context` and from the libraries: the network
`NewDiscordMessage` fetches from, the cached guild and channels, the permissions of a user in
a channel (`c.s.State.UserChannelPermissions`) with the two permission constants it tests,
the configuration database (`c.b.db.GetGuild`, and the error result of `c.b.db.UpdateGuild`),
the helper `TrimChannelString` of the package, `strings.ToLower`, `runtime.Version()`, the
start time in Unix seconds and the colour constant `Blue`. -/
structure CreateContext (σ ρ ε : Type) where
  http : Http σ ρ ε
  StateGuild : String → Except String Guild
  StateChannel : String → Except String Channel
  UserChannelPermissions : String → String → Except String Nat
  PermissionAdministrator : Nat
  PermissionAll : Nat
  GetGuild : String → Except String database.Guild
  UpdateGuild : String → database.Guild → Option String
  TrimChannelString : String → String
  ToLower : String → String
  runtimeVersion : String
  startTimeUnix : Int
  Blue : Int

/-- The text `messageCreateHandler` sends for `fl.help`. -/
def helpText : String :=
  "To set a log channel, do `fl.set [logtype] <channel>`, where channel is optional.\n" ++
  "Logtypes:\n" ++
  "`join` - When a user joins the server\n" ++
  "`leave` - When a user leaves the server\n" ++
  "`msgdelete` - When a message is deleted\n" ++
  "`msgedit` - When a message is edited\n" ++
  "`ban` - When a user got banned\n" ++
  "`unban` - When a user got unbanned\n" ++
  "\n" ++
  "Example - fl.set join\n" ++
  "Example - fl.set join #join-logs\n" ++
  "Example - fl.set join 1234123412341234\n"

/-- The branch `args[0] == "fl.set"` of `messageCreateHandler`. -/
def flSet {σ ρ ε : Type} (c : CreateContext σ ρ ε) (g : Guild) (ch : Channel) (uperms : Nat)
    (args : List String) : List CreateEffect :=
  match args with
  | _ :: logtype :: rest =>
    match c.GetGuild g.ID with
    | Except.error _ => []
    | Except.ok gc =>
      if uperms &&& (c.PermissionAdministrator ||| c.PermissionAll) = 0 then
        [CreateEffect.ChannelMessageSend ch.ID "This is admin only, sorry!"]
      else
        let setChannel : Option Channel :=
          match rest with
          | chArg :: _ =>
            match c.StateChannel (c.TrimChannelString chArg) with
            | Except.error _ => none
            | Except.ok sc => if sc.GuildID ≠ g.ID then none else some sc
          | [] => some ch
        match setChannel with
        | none => []
        | some sc =>
          let kind := c.ToLower logtype
          let gc1 : database.Guild :=
            if kind = "join" then { gc with JoinLog := sc.ID }
            else if kind = "leave" then { gc with LeaveLog := sc.ID }
            else if kind = "msgdelete" then { gc with MsgDeleteLog := sc.ID }
            else if kind = "msgedit" then { gc with MsgEditLog := sc.ID }
            else if kind = "ban" then { gc with BanLog := sc.ID }
            else if kind = "unban" then { gc with UnbanLog := sc.ID }
            else gc
          match c.UpdateGuild g.ID gc1 with
          | some _ =>
            [CreateEffect.UpdateGuild g.ID gc1,
             CreateEffect.ChannelMessageSend ch.ID "Could not update config "]
          | none =>
            [CreateEffect.UpdateGuild g.ID gc1,
             CreateEffect.ChannelMessageSend ch.ID "Updated config"]
  | _ => []

/-- The handler `messageCreateHandler(c, m)`, in the world `w` of the network: what it does
to the outside, or `none` for a panic. The read `args[0]` is the lookup `args[0]?`, which
is `none` when the slice is empty. -/
def messageCreateHandler {σ ρ ε : Type} (c : CreateContext σ ρ ε) (m : MessageCreate)
    (w : σ) : Option (List CreateEffect) :=
  if m.Message.Author.Bot then some []
  else
    match c.StateGuild m.Message.GuildID with
    | Except.error _ => some []
    | Except.ok g =>
      match c.StateChannel m.Message.ChannelID with
      | Except.error _ => some []
      | Except.ok ch =>
        let stored := CreateEffect.SetMessage
          (NewDiscordMessage c.http m.Message (1024 * 1024 * 10) w).1
        if hasPrefix m.Message.Content "fl.info" then
          some [stored, CreateEffect.ChannelMessageSendEmbed m.Message.ChannelID
            { Color := c.Blue,
              Title := "Info",
              ThumbnailURL := "",
              Fields := [
                { Name := "Golang version", Value := c.runtimeVersion },
                { Name := "Running since",
                  Value := "<t:" ++ toString c.startTimeUnix ++ ":R>" }],
              Timestamp := "",
              FooterIconURL := "",
              FooterText := "" }]
        else
          let args := Fields m.Message.Content
          match c.UserChannelPermissions m.Message.Author.ID ch.ID with
          | Except.error _ => some [stored]
          | Except.ok uperms =>
            match args[0]? with
            | none => none
            | some arg0 =>
              if arg0 = "fl.set" then some (stored :: flSet c g ch uperms args)
              else if arg0 = "fl.help" then
                some [stored, CreateEffect.ChannelMessageSend ch.ID helpText]
              else some [stored]

/-- A context for evaluating `messageCreateHandler`: guild 1 and its channels are cached,
every user has the administrator permission, and the configuration of guild 1 is empty. -/
def demoCreate : CreateContext Nat String String :=
  { http := demoHttp,
    StateGuild := fun id => if id = "1" then Except.ok demoGuild else Except.error "unknown guild",
    StateChannel := fun id =>
      match demoGuild.Channels.find? (fun ch => ch.ID = id) with
      | some ch => Except.ok ch
      | none => Except.error "unknown channel",
    UserChannelPermissions := fun _ _ => Except.ok 8,
    PermissionAdministrator := 8,
    PermissionAll := 8,
    GetGuild := fun id => Except.ok
      { ID := id, MsgEditLog := "", MsgDeleteLog := "", BanLog := "", UnbanLog := "",
        JoinLog := "", LeaveLog := "" },
    UpdateGuild := fun _ _ => none,
    TrimChannelString := fun s => s,
    ToLower := String.toLower,
    runtimeVersion := "go1.21",
    startTimeUnix := 1700000000,
    Blue := 6410733 }

/-! ## The member-join handlers of `main.go` and `bot/events.go` -/

/-- The fields of `discordgo.Member` read by the program. -/
structure Member where
  GuildID : String
  User : User
  Roles : List String
deriving DecidableEq, Repr

/-- The event `discordgo.GuildMemberAdd`, which embeds the member. -/
structure GuildMemberAdd where
  Member : Member
deriving DecidableEq, Repr

/-- What `GuildMemberAddHandler` of `main.go` reads from the session, the package variables
and the libraries: the error result of `loggerDB.SetMember`, the cached guild, the
configured channel `config.Join`, the formatted `time.Now()`, the text of the creation date
field for an instant given by its Unix seconds (`ts.Format(time.RFC1123)` and the days
since, which are the library's time formatting and floating point), and the `discordgo`
helpers. -/
structure JoinMainContext where
  SetMember : Member → Option StoreError
  StateGuild : String → Except String Guild
  Join : String
  now : String
  creationDate : Int → String
  Mention : User → String
  UserString : User → String
  AvatarURL : User → String → String
  EndpointGuildIcon : String → String → String

/-- The handler `GuildMemberAddHandler(s, m)` of `main.go`: the calls it makes. Each failed
step, the decoding of the user ID among them, is an early `return`. -/
def GuildMemberAddHandler (c : JoinMainContext) (m : GuildMemberAdd) : List ApiCall :=
  match c.SetMember m.Member with
  | some _ => []
  | none =>
    match c.StateGuild m.Member.GuildID with
    | Except.error _ => []
    | Except.ok g =>
      match snowflakeTime m.Member.User.ID with
      | Except.error _ => []
      | Except.ok id =>
        [ApiCall.ChannelMessageSendEmbed c.Join
          { Color := dColorLBlue,
            Title := "User joined",
            ThumbnailURL := c.AvatarURL m.Member.User "256",
            Fields := [
              { Name := "User",
                Value := c.Mention m.Member.User ++ "\n" ++ c.UserString m.Member.User ++ " ("
                  ++ m.Member.User.ID ++ ")" },
              { Name := "Creation date", Value := c.creationDate id }],
            Timestamp := c.now,
            FooterIconURL := c.EndpointGuildIcon g.ID g.Icon,
            FooterText := g.Name }]

/-- What `guildMemberAddHandler` of `bot/events.go` reads from its `*Context` and from the
libraries: the error result of `c.b.store.SetMember`, the cached guild, the result of the
helper `ParseSnowflake` of the package (its first result as `%v` prints it, and its error),
the configured channel `c.gc.JoinLog`, the colour constant `Blue`, the formatted
`time.Now()` and the `discordgo` helpers. -/
structure JoinContext where
  SetMember : Member → Option StoreError
  StateGuild : String → Except String Guild
  ParseSnowflake : String → String × Option String
  JoinLog : String
  Blue : Int
  now : String
  Mention : User → String
  UserString : User → String
  AvatarURL : User → String → String
  EndpointGuildIcon : String → String → String

/-- The handler `guildMemberAddHandler(c, m)` of `bot/events.go`: the calls it makes. A
failure of `SetMember` is only logged, and the error of `ParseSnowflake` is assigned and
never read. -/
def guildMemberAddHandler (c : JoinContext) (m : GuildMemberAdd) : List ApiCall :=
  match c.StateGuild m.Member.GuildID with
  | Except.error _ => []
  | Except.ok g =>
    let ts := (c.ParseSnowflake m.Member.User.ID).1
    [ApiCall.ChannelMessageSendEmbed c.JoinLog
      { Color := c.Blue,
        Title := "User joined",
        ThumbnailURL := c.AvatarURL m.Member.User "256",
        Fields := [
          { Name := "User",
            Value := c.Mention m.Member.User ++ "\n" ++ c.UserString m.Member.User ++ " ("
              ++ m.Member.User.ID ++ ")" },
          { Name := "Creation date", Value := "<t:" ++ ts ++ ":R>" }],
        Timestamp := c.now,
        FooterIconURL := c.EndpointGuildIcon g.ID g.Icon,
        FooterText := g.Name }]

/-- The join of a user with the given identifier to guild 1. -/
def demoJoin (userID : String) : GuildMemberAdd :=
  { Member := { GuildID := "1",
                User := { ID := userID, Username := "u", Discriminator := "0001", Avatar := "",
                          Bot := false },
                Roles := [] } }

/-- A context for evaluating `GuildMemberAddHandler` of `main.go`. -/
def demoJoinMain : JoinMainContext :=
  { SetMember := fun _ => none,
    StateGuild := fun id => if id = "1" then Except.ok demoGuild else Except.error "unknown guild",
    Join := "903",
    now := "2024-01-01T00:00:00Z",
    creationDate := fun id => toString id,
    Mention := fun u => "<@" ++ u.ID ++ ">",
    UserString := fun u => u.Username ++ "#" ++ u.Discriminator,
    AvatarURL := fun u _ => u.Avatar,
    EndpointGuildIcon := fun g i => g ++ "/" ++ i }

/-- A context for evaluating `guildMemberAddHandler` of `bot/events.go`: `ParseSnowflake`
answers a string of digits with "1462015105" and any other string with "0" and an error. -/
def demoJoinBot : JoinContext :=
  { SetMember := fun _ => none,
    StateGuild := fun id => if id = "1" then Except.ok demoGuild else Except.error "unknown guild",
    ParseSnowflake := fun id =>
      if isDigitString id = true ∧ id ≠ "" then ("1462015105", none) else ("0", some "invalid"),
    JoinLog := "904",
    Blue := 6410733,
    now := "2024-01-01T00:00:00Z",
    Mention := fun u => "<@" ++ u.ID ++ ">",
    UserString := fun u => u.Username ++ "#" ++ u.Discriminator,
    AvatarURL := fun u _ => u.Avatar,
    EndpointGuildIcon := fun g i => g ++ "/" ++ i }

/-! ## `bot/events.go`: `guildMemberRemoveHandler` -/

/-- Go's `strings.Join(elems, sep)`. -/
def Join : List String → String → String
  | [], _ => ""
  | [a], _ => a
  | a :: b :: rest, sep => a ++ sep ++ Join (b :: rest) sep

/-- The role mentions `guildMemberRemoveHandler` builds: `fmt.Sprintf("<@&%v>", r)` for each
role of the member. -/
def roleMentions (memRoles : List String) : List String :=
  memRoles.map (fun r => "<@&" ++ r ++ ">")

/-- The loop `for _, r := range roles` of `guildMemberRemoveHandler` on the slice `shown`:
it stops at the first role with which the joined text would be longer than 760 bytes. -/
def shownLoop : List String → List String → List String
  | [], shown => shown
  | r :: rest, shown =>
    if (Join (shown ++ [r]) ", ").utf8ByteSize > 760 then shown
    else shownLoop rest (shown ++ [r])

/-- The value of the field "Roles" that `guildMemberRemoveHandler` adds to the embed. -/
def rolesValue (memRoles : List String) : String :=
  let roles := roleMentions memRoles
  if roles.length ≤ 0 then "None"
  else
    let shown := shownLoop roles []
    let embedStr := Join shown ", "
    if shown.length ≠ roles.length then
      embedStr ++ (" and " ++ toString (roles.length - shown.length) ++ " more")
    else embedStr

/-- The event `discordgo.GuildMemberRemove`, which embeds the member. -/
structure GuildMemberRemove where
  Member : Member
deriving DecidableEq, Repr

/-- What `guildMemberRemoveHandler` does to the outside: the message it sends and the
removal of the member record. -/
inductive RemoveEffect where
  | ChannelMessageSendEmbed (channelID : String) (embed : MessageEmbed)
  | DeleteMember (guildID userID : String)
deriving DecidableEq, Repr

/-- What `guildMemberRemoveHandler` reads from its `*Context` and from the libraries: the
cached guild, the result of `c.b.store.GetMember`, the configured channel `c.gc.LeaveLog`,
the colour constant `Orange`, the formatted `time.Now()` and the `discordgo` helpers. -/
structure RemoveContext where
  StateGuild : String → Except String Guild
  GetMember : String → String → Except StoreError Member
  LeaveLog : String
  Orange : Int
  now : String
  Mention : User → String
  UserString : User → String
  AvatarURL : User → String → String
  EndpointGuildIcon : String → String → String

/-- The handler `guildMemberRemoveHandler(c, m)`: what it does to the outside. A failure of
`DeleteMember` is only logged. -/
def guildMemberRemoveHandler (c : RemoveContext) (m : GuildMemberRemove) : List RemoveEffect :=
  match c.StateGuild m.Member.GuildID with
  | Except.error _ => []
  | Except.ok g =>
    match c.GetMember m.Member.GuildID m.Member.User.ID with
    | Except.error _ => []
    | Except.ok mem =>
      let embed : MessageEmbed :=
        { Color := c.Orange,
          Title := "User left or kicked",
          ThumbnailURL := c.AvatarURL m.Member.User "256",
          Fields := [
            { Name := "User",
              Value := c.Mention m.Member.User ++ "\n" ++ c.UserString m.Member.User,
              Inline := true },
            { Name := "ID", Value := m.Member.User.ID, Inline := true }],
          Timestamp := c.now,
          FooterIconURL := c.EndpointGuildIcon g.ID g.Icon,
          FooterText := g.Name }
      let embed :=
        { embed with Fields := embed.Fields ++ [{ Name := "Roles", Value := rolesValue mem.Roles }] }
      [RemoveEffect.ChannelMessageSendEmbed c.LeaveLog embed,
       RemoveEffect.DeleteMember m.Member.GuildID m.Member.User.ID]

/-- The value of the field "Roles" in what the handler sends, if it sends something. -/
def sentRoles : List RemoveEffect → Option String
  | RemoveEffect.ChannelMessageSendEmbed _ embed :: _ =>
    (embed.Fields.find? (fun f => f.Name = "Roles")).map (fun f => f.Value)
  | _ => none

/-- A context for evaluating `guildMemberRemoveHandler`: every user is a member of guild 1
with the given roles. -/
def demoRemove (roles : List String) : RemoveContext :=
  { StateGuild := fun id => if id = "1" then Except.ok demoGuild else Except.error "unknown guild",
    GetMember := fun g u => Except.ok
      { GuildID := g,
        User := { ID := u, Username := "u", Discriminator := "0001", Avatar := "", Bot := false },
        Roles := roles },
    LeaveLog := "905",
    Orange := 15761746,
    now := "2024-01-01T00:00:00Z",
    Mention := fun u => "<@" ++ u.ID ++ ">",
    UserString := fun u => u.Username ++ "#" ++ u.Discriminator,
    AvatarURL := fun u _ => u.Avatar,
    EndpointGuildIcon := fun g i => g ++ "/" ++ i }

/-! ## Lemmas on the attachment loop -/

theorem foldl_attachStep {σ ρ ε : Type} (h : Http σ ρ ε) (maxSize : Int)
    (atts : List MessageAttachment) (acc : List Bytes) (w : σ) :
    atts.foldl (attachStep h maxSize) (acc, w) =
      (acc ++ (fetchedPayloads h (atts.filter (fun a => decide (a.Size ≤ maxSize))) w).1,
        (fetchedPayloads h (atts.filter (fun a => decide (a.Size ≤ maxSize))) w).2) := by
  induction atts generalizing acc w with
  | nil => simp [fetchedPayloads]
  | cons a rest ih =>
    rw [List.foldl_cons]
    by_cases hs : a.Size > maxSize
    · have hle : ¬ a.Size ≤ maxSize := not_le.mpr hs
      simp only [attachStep, if_pos hs]
      rw [ih]
      simp [List.filter_cons, hle]
    · have hle : a.Size ≤ maxSize := not_lt.mp hs
      simp only [attachStep, if_neg hs]
      rw [List.filter_cons]
      simp only [hle, decide_True, if_true]
      rcases hg : GetAttachment h a.URL w with ⟨⟨data, err⟩, w1⟩
      cases err with
      | none => simp [fetchedPayloads, hg, ih]
      | some e => simp [fetchedPayloads, hg, ih]

theorem fetchedPayloads_length {σ ρ ε : Type} (h : Http σ ρ ε)
    (atts : List MessageAttachment) (w : σ) :
    (fetchedPayloads h atts w).1.length ≤ atts.length := by
  induction atts generalizing w with
  | nil => simp [fetchedPayloads]
  | cons a rest ih =>
    rcases hg : GetAttachment h a.URL w with ⟨⟨data, err⟩, w1⟩
    cases err with
    | none => simpa [fetchedPayloads, hg] using ih w1
    | some e =>
      have := ih w1
      simp only [fetchedPayloads, hg, List.length_cons]
      omega

/-! ## Theorems on `NewDiscordMessage` -/

/-- C1: `NewDiscordMessage` always returns a record wrapping the given message; attachments
whose declared `Size` exceeds `maxSize` contribute nothing (the record and the world are the
ones obtained from the message with those attachments removed, so they are not even
requested, and there are at most as many payloads as attachments within the cap); when
every attachment is over the cap the record has no attachment entries; and an attachment
whose `Size` equals `maxSize` is still fetched and kept. -/
theorem NewDiscordMessage_drops_oversized {σ ρ ε : Type} (h : Http σ ρ ε) (msg : Message)
    (maxSize : Int) (w : σ) :
    (NewDiscordMessage h msg maxSize w).1.Message = msg ∧
    ((NewDiscordMessage h msg maxSize w).1.Attachments, (NewDiscordMessage h msg maxSize w).2) =
      ((NewDiscordMessage h (withoutOversized msg maxSize) maxSize w).1.Attachments,
       (NewDiscordMessage h (withoutOversized msg maxSize) maxSize w).2) ∧
    (NewDiscordMessage h msg maxSize w).1.Attachments.length ≤
      (msg.Attachments.filter (fun a => decide (a.Size ≤ maxSize))).length ∧
    ((∀ a ∈ msg.Attachments, a.Size > maxSize) →
      (NewDiscordMessage h msg maxSize w).1.Attachments = []) ∧
    (∀ a data w1, a.Size = maxSize → msg.Attachments = [a] →
      GetAttachment h a.URL w = ((data, none), w1) →
      (NewDiscordMessage h msg maxSize w).1.Attachments = [data]) := by
  refine ⟨rfl, ?_, ?_, ?_, ?_⟩
  · simp only [NewDiscordMessage, withoutOversized, foldl_attachStep, List.nil_append,
      List.filter_filter, Bool.and_self]
  · simp only [NewDiscordMessage, foldl_attachStep, List.nil_append]
    exact fetchedPayloads_length h _ w
  · intro hall
    have hf : msg.Attachments.filter (fun a => decide (a.Size ≤ maxSize)) = [] := by
      rw [List.filter_eq_nil_iff]
      intro a ha
      have := hall a ha
      simp only [decide_eq_true_eq, not_le]
      exact this
    simp [NewDiscordMessage, foldl_attachStep, hf, fetchedPayloads]
  · intro a data w1 hsz hatt hg
    simp only [NewDiscordMessage, foldl_attachStep, List.nil_append]
    simp [hatt, hsz, fetchedPayloads, hg]

/-- Witness for C1: a message whose only attachment is over the cap yields no entries, and
a message whose only attachment is exactly at the cap keeps its payload. -/
theorem NewDiscordMessage_drops_oversized_witness :
    (∀ a ∈ (demoMessage "100" "hi" [demoAttachment "ok" 11]).Attachments, a.Size > 10) ∧
    (NewDiscordMessage demoHttp (demoMessage "100" "hi" [demoAttachment "ok" 11]) 10 0).1.Attachments
      = [] ∧
    (demoAttachment "ok" 10).Size = 10 ∧
    GetAttachment demoHttp (demoAttachment "ok" 10).URL 0 = (([1, 2], none), 1) ∧
    (NewDiscordMessage demoHttp (demoMessage "100" "hi" [demoAttachment "ok" 10]) 10 0).1.Attachments
      = [[1, 2]] :=
  have hall : ∀ a ∈ (demoMessage "100" "hi" [demoAttachment "ok" 11]).Attachments, a.Size > 10 := by
    intro a ha
    simp only [demoMessage, List.mem_singleton] at ha
    subst ha
    decide
  ⟨hall,
   (NewDiscordMessage_drops_oversized demoHttp
      (demoMessage "100" "hi" [demoAttachment "ok" 11]) 10 0).2.2.2.1 hall,
   rfl, rfl,
   (NewDiscordMessage_drops_oversized demoHttp
      (demoMessage "100" "hi" [demoAttachment "ok" 10]) 10 0).2.2.2.2
      (demoAttachment "ok" 10) [1, 2] 1 rfl rfl rfl⟩

/-- C2: an attachment whose fetch returns an error is skipped and the loop goes on: the
record's `Attachments` are exactly the payloads of the attachments with `Size ≤ maxSize`
whose fetch succeeded, in attachment order, each payload as the fetch returned it (a body
that broke off while being read is dropped, not kept in part), and the record wraps the
message whatever the number of failed fetches. -/
theorem NewDiscordMessage_attachments_eq {σ ρ ε : Type} (h : Http σ ρ ε) (msg : Message)
    (maxSize : Int) (w : σ) :
    NewDiscordMessage h msg maxSize w =
      ({ Message := msg,
         Attachments := (fetchedPayloads h
            (msg.Attachments.filter (fun a => decide (a.Size ≤ maxSize))) w).1 },
       (fetchedPayloads h (msg.Attachments.filter (fun a => decide (a.Size ≤ maxSize))) w).2) := by
  simp only [NewDiscordMessage, foldl_attachStep, List.nil_append]

/-! ## Lemmas on the string order -/

theorem lexLess_asymm (a b : List Char) (h : lexLess a b = true) : lexLess b a = false := by
  induction a generalizing b with
  | nil => cases b <;> simp_all [lexLess]
  | cons x xs ih =>
    cases b with
    | nil => simp_all [lexLess]
    | cons y ys =>
      simp only [lexLess] at h ⊢
      split_ifs at h ⊢ <;> first | omega | simp_all

theorem lexLess_negtrans (a b c : List Char) (h1 : lexLess a b = false)
    (h2 : lexLess b c = false) : lexLess a c = false := by
  induction a generalizing b c with
  | nil =>
    cases b <;> cases c <;> simp_all [lexLess]
  | cons x xs ih =>
    cases b with
    | nil => cases c <;> simp_all [lexLess]
    | cons y ys =>
      cases c with
      | nil => simp [lexLess]
      | cons z zs =>
        simp only [lexLess] at h1 h2 ⊢
        split_ifs at h1 h2 ⊢ <;> first | omega | exact ih _ _ h1 h2 | simp_all

theorem geID_total (a b : DiscordMessage) : geID a b ∨ geID b a := by
  unfold geID stringLess
  cases h : lexLess a.Message.ID.data b.Message.ID.data
  · exact Or.inl rfl
  · exact Or.inr (lexLess_asymm _ _ h)

theorem geID_trans (a b c : DiscordMessage) (h1 : geID a b) (h2 : geID b c) : geID a c := by
  unfold geID stringLess at *
  exact lexLess_negtrans _ _ _ h1 h2

/-! ## Lemmas on `sort.Sort` with `ByID` -/

theorem getElem?_append_at {α : Type} (p : List α) (y : α) (t : List α) :
    (p ++ y :: t)[p.length]? = some y := by
  induction p with
  | nil => simp
  | cons a p ih => simpa using ih

theorem set_append_at {α : Type} (p : List α) (y z : α) (t : List α) :
    (p ++ y :: t).set p.length z = p ++ z :: t := by
  induction p with
  | nil => rfl
  | cons a p ih => simp

theorem ByID_Less_adjacent (p : List DiscordMessage) (y x : DiscordMessage)
    (t : List DiscordMessage) :
    ByID.Less (p ++ y :: x :: t) (p.length + 1) p.length =
      some (stringLess x.Message.ID y.Message.ID) := by
  have h1 : (p ++ y :: x :: t)[p.length + 1]? = some x := by
    have := getElem?_append_at (p ++ [y]) x t
    simpa using this
  have h2 := getElem?_append_at p y (x :: t)
  simp only [ByID.Less, h1, h2]

theorem ByID_Swap_adjacent (p : List DiscordMessage) (y x : DiscordMessage)
    (t : List DiscordMessage) :
    ByID.Swap (p ++ y :: x :: t) (p.length + 1) p.length = some (p ++ x :: y :: t) := by
  have h1 : (p ++ y :: x :: t)[p.length + 1]? = some x := by
    have := getElem?_append_at (p ++ [y]) x t
    simpa using this
  have h2 := getElem?_append_at p y (x :: t)
  have h3 : (p ++ y :: x :: t).set (p.length + 1) y = p ++ y :: y :: t := by
    simp
  simp only [ByID.Swap, h1, h2, h3, set_append_at]

theorem sinkLoop_ByID (x : DiscordMessage) (R t : List DiscordMessage) :
    sinkLoop ByID.sortInterface 0 R.length (R.reverse ++ x :: t) =
      some ((List.orderedInsert geID x R).reverse ++ t) := by
  induction R generalizing t with
  | nil => simp [sinkLoop]
  | cons y R ih =>
    have hd : (y :: R).reverse ++ x :: t = R.reverse ++ y :: x :: t := by simp
    have hl : R.length = R.reverse.length := by simp
    rw [hd, List.length_cons, sinkLoop, if_pos (Nat.succ_pos _)]
    have hless : ByID.Less (R.reverse ++ y :: x :: t) (R.length + 1) R.length =
        some (stringLess x.Message.ID y.Message.ID) := by
      have := ByID_Less_adjacent R.reverse y x t
      rwa [← hl] at this
    have hswap : ByID.Swap (R.reverse ++ y :: x :: t) (R.length + 1) R.length =
        some (R.reverse ++ x :: y :: t) := by
      have := ByID_Swap_adjacent R.reverse y x t
      rwa [← hl] at this
    have hL : ByID.sortInterface.Less = ByID.Less := rfl
    have hS : ByID.sortInterface.Swap = ByID.Swap := rfl
    rw [hL, hS, hless]
    cases hb : stringLess x.Message.ID y.Message.ID
    · have hge : geID x y := hb
      simp [List.orderedInsert, hge]
    · have hge : ¬ geID x y := by simp [geID, hb]
      simp only [hswap, ih, List.orderedInsert, if_neg hge, List.reverse_cons,
        List.append_assoc, List.singleton_append]

theorem foldlM_sinkLoop_ByID (R rest : List DiscordMessage) :
    (List.range' R.length rest.length).foldlM (fun d1 i => sinkLoop ByID.sortInterface 0 i d1)
        (R.reverse ++ rest) =
      some ((rest.foldl (fun acc x => List.orderedInsert geID x acc) R).reverse) := by
  induction rest generalizing R with
  | nil => simp
  | cons x rest ih =>
    have hlen : (List.orderedInsert geID x R).length = R.length + 1 :=
      List.orderedInsert_length geID R x
    have := ih (List.orderedInsert geID x R)
    rw [hlen] at this
    simp only [List.length_cons, List.range'_succ, List.foldlM_cons, sinkLoop_ByID,
      List.foldl_cons]
    exact this

theorem sortSort_ByID_eq (m : List DiscordMessage) :
    sortSort ByID.sortInterface m =
      some ((m.foldl (fun acc x => List.orderedInsert geID x acc) []).reverse) := by
  match m with
  | [] => simp [sortSort, ByID.sortInterface, ByID.Len]
  | [x] => simp [sortSort, ByID.sortInterface, ByID.Len]
  | x :: y :: rest =>
    have h := foldlM_sinkLoop_ByID [x] (y :: rest)
    have hn : ¬ (ByID.Len (x :: y :: rest) ≤ 1) := by simp [ByID.Len]
    have hB : ByID.sortInterface.Len = ByID.Len := rfl
    simp only [sortSort, hB, if_neg hn, insertionSort]
    simpa [ByID.Len] using h

theorem foldl_orderedInsert_sorted (m acc : List DiscordMessage) (h : acc.Sorted geID) :
    (m.foldl (fun acc x => List.orderedInsert geID x acc) acc).Sorted geID := by
  haveI : IsTotal DiscordMessage geID := ⟨geID_total⟩
  haveI : IsTrans DiscordMessage geID := ⟨geID_trans⟩
  induction m generalizing acc with
  | nil => exact h
  | cons x m ih => exact ih _ (List.Sorted.orderedInsert x acc h)

theorem foldl_orderedInsert_perm (m acc : List DiscordMessage) :
    (m.foldl (fun acc x => List.orderedInsert geID x acc) acc).Perm (m ++ acc) := by
  induction m generalizing acc with
  | nil => simp
  | cons x m ih =>
    refine (ih _).trans ?_
    refine (List.Perm.append_left m (List.perm_orderedInsert geID x acc)).trans ?_
    simp

/-- The contract of `sort.Sort` for `ByID`: it returns, and the result is a permutation of
the input in which no element is before an earlier one by `ByID.Less`. -/
theorem sortSort_ByID_sorted (m : List DiscordMessage) :
    ∃ out, sortSort ByID.sortInterface m = some out ∧ out.Perm m ∧
      out.Pairwise (fun a b => stringLess b.Message.ID a.Message.ID = false) := by
  refine ⟨_, sortSort_ByID_eq m, ?_, ?_⟩
  · refine (List.reverse_perm _).trans ?_
    simpa using foldl_orderedInsert_perm m []
  · rw [List.pairwise_reverse]
    exact foldl_orderedInsert_sorted m [] List.sorted_nil

/-! ## Lemmas on decimal digit strings -/

theorem isDigit_bounds (c : Char) (h : c.isDigit = true) : 48 ≤ c.toNat ∧ c.toNat ≤ 57 := by
  simp only [Char.isDigit, Bool.and_eq_true, decide_eq_true_eq] at h
  exact ⟨h.1, h.2⟩

theorem foldl_digits_acc (l : List Char) (n : Nat) :
    l.foldl (fun n c => 10 * n + digitValue c) n =
      n * 10 ^ l.length + l.foldl (fun n c => 10 * n + digitValue c) 0 := by
  induction l generalizing n with
  | nil => simp
  | cons c l ih =>
    simp only [List.foldl_cons, List.length_cons]
    rw [ih (10 * n + digitValue c), ih (10 * 0 + digitValue c)]
    ring

theorem foldl_digits_lt (l : List Char) (h : ∀ c ∈ l, c.isDigit = true) :
    l.foldl (fun n c => 10 * n + digitValue c) 0 < 10 ^ l.length := by
  induction l with
  | nil => simp
  | cons c l ih =>
    have hc := isDigit_bounds c (h c (List.mem_cons_self c l))
    have hl := ih (fun d hd => h d (List.mem_cons_of_mem c hd))
    simp only [List.foldl_cons, List.length_cons]
    rw [foldl_digits_acc]
    have hv : digitValue c ≤ 9 := by unfold digitValue; omega
    have hp : 10 ^ (l.length + 1) = 10 * 10 ^ l.length := by ring
    rw [hp]
    nlinarith

theorem lexLess_iff_value_lt (a b : List Char) (ha : ∀ c ∈ a, c.isDigit = true)
    (hb : ∀ c ∈ b, c.isDigit = true) (hlen : a.length = b.length) :
    lexLess a b = true ↔
      a.foldl (fun n c => 10 * n + digitValue c) 0 <
        b.foldl (fun n c => 10 * n + digitValue c) 0 := by
  induction a generalizing b with
  | nil =>
    cases b with
    | nil => simp [lexLess]
    | cons y ys => simp at hlen
  | cons x xs ih =>
    cases b with
    | nil => simp at hlen
    | cons y ys =>
      have hx := isDigit_bounds x (ha x (List.mem_cons_self x xs))
      have hy := isDigit_bounds y (hb y (List.mem_cons_self y ys))
      have hxs : ∀ c ∈ xs, c.isDigit = true := fun d hd => ha d (List.mem_cons_of_mem x hd)
      have hys : ∀ c ∈ ys, c.isDigit = true := fun d hd => hb d (List.mem_cons_of_mem y hd)
      have hl : xs.length = ys.length := by simpa using hlen
      have hvx := foldl_digits_lt xs hxs
      have hvy := foldl_digits_lt ys hys
      have hrec := ih ys hxs hys hl
      simp only [List.foldl_cons, lexLess]
      rw [foldl_digits_acc xs, foldl_digits_acc ys, hl] at *
      have hdx : digitValue x = x.toNat - 48 := rfl
      have hdy : digitValue y = y.toNat - 48 := rfl
      simp only [Nat.mul_zero, Nat.zero_add]
      by_cases h1 : x.toNat < y.toNat
      · simp only [h1, if_true, true_iff]
        have : digitValue x + 1 ≤ digitValue y := by omega
        nlinarith
      · by_cases h2 : y.toNat < x.toNat
        · simp only [h1, h2, if_true, if_false, false_iff, Bool.false_eq_true, not_lt]
          have : digitValue y + 1 ≤ digitValue x := by omega
          nlinarith
        · have heq : digitValue x = digitValue y := by omega
          simp only [h1, h2, if_false, heq]
          rw [hrec]
          omega

theorem stringLess_iff_decimalValue_lt (s t : String) (hs : isDigitString s = true)
    (ht : isDigitString t = true) (hlen : s.length = t.length) :
    stringLess s t = true ↔ decimalValue s < decimalValue t := by
  unfold isDigitString at hs ht
  rw [List.all_eq_true] at hs ht
  exact lexLess_iff_value_lt s.data t.data hs ht hlen

/-! ## Theorems on `ByID` -/

/-- C3, as the code has it: sorting a list of stored messages with `ByID` returns a
permutation of the list that is in non-decreasing order of the numeric value of the message
IDs whenever the IDs are decimal digit strings with one common number of digits; and the
same holds of every permutation of the list that `ByID.Less` leaves in order, which is
what `sort.Sort` promises of its result. -/
theorem sortSort_ByID_numeric (m : List DiscordMessage) (k : Nat)
    (hd : ∀ r ∈ m, isDigitString r.Message.ID = true ∧ r.Message.ID.length = k) :
    (∃ out, sortSort ByID.sortInterface m = some out ∧ out.Perm m ∧
      out.Pairwise (fun a b => decimalValue a.Message.ID ≤ decimalValue b.Message.ID)) ∧
    (∀ out : List DiscordMessage, out.Perm m →
      out.Pairwise (fun a b => stringLess b.Message.ID a.Message.ID = false) →
      out.Pairwise (fun a b => decimalValue a.Message.ID ≤ decimalValue b.Message.ID)) := by
  have hnum : ∀ out : List DiscordMessage, out.Perm m →
      out.Pairwise (fun a b => stringLess b.Message.ID a.Message.ID = false) →
      out.Pairwise (fun a b => decimalValue a.Message.ID ≤ decimalValue b.Message.ID) := by
    intro out hperm hsorted
    have hmem : ∀ r ∈ out, isDigitString r.Message.ID = true ∧ r.Message.ID.length = k :=
      fun r hr => hd r (hperm.subset hr)
    refine List.Pairwise.imp_of_mem ?_ hsorted
    intro a b ha hb hab
    have hiff := stringLess_iff_decimalValue_lt b.Message.ID a.Message.ID (hmem b hb).1
      (hmem a ha).1 (by rw [(hmem a ha).2, (hmem b hb).2])
    by_contra hlt
    rw [not_le] at hlt
    rw [hiff.mpr hlt] at hab
    exact Bool.noConfusion hab
  obtain ⟨out, hout, hperm, hsorted⟩ := sortSort_ByID_sorted m
  exact ⟨⟨out, hout, hperm, hnum out hperm hsorted⟩, hnum⟩

/-- Witness for C3: the stored messages 300, 100, 200 are sorted to 100, 200, 300. -/
theorem sortSort_ByID_numeric_witness :
    (∀ r ∈ [demoRecord "300" "a", demoRecord "100" "b", demoRecord "200" "c"],
      isDigitString r.Message.ID = true ∧ r.Message.ID.length = 3) ∧
    sortSort ByID.sortInterface [demoRecord "300" "a", demoRecord "100" "b", demoRecord "200" "c"]
      = some [demoRecord "100" "b", demoRecord "200" "c", demoRecord "300" "a"] ∧
    ∃ out, sortSort ByID.sortInterface
        [demoRecord "300" "a", demoRecord "100" "b", demoRecord "200" "c"] = some out ∧
      out.Perm [demoRecord "300" "a", demoRecord "100" "b", demoRecord "200" "c"] ∧
      out.Pairwise (fun a b => decimalValue a.Message.ID ≤ decimalValue b.Message.ID) :=
  have hd : ∀ r ∈ [demoRecord "300" "a", demoRecord "100" "b", demoRecord "200" "c"],
      isDigitString r.Message.ID = true ∧ r.Message.ID.length = 3 := by decide
  ⟨hd, by decide, (sortSort_ByID_numeric _ 3 hd).1⟩

/-- C3 as stated fails: the stored messages with IDs "9" and "10", whose numbers of digits
differ, are sorted by `ByID` to "10" before "9", which is not non-decreasing numeric order. -/
theorem sortSort_ByID_nine_ten :
    sortSort ByID.sortInterface [demoRecord "9" "a", demoRecord "10" "b"] =
      some [demoRecord "10" "b", demoRecord "9" "a"] ∧
    ¬ [demoRecord "10" "b", demoRecord "9" "a"].Pairwise
        (fun a b => decimalValue a.Message.ID ≤ decimalValue b.Message.ID) := by
  decide

/-! ## Theorems on `guildBanAddHandler` -/

theorem banFilesStep_eq (c : Context) (g : Guild) (m : GuildBanAdd) (files : List File)
    (ch : Channel) :
    banFilesStep c g m files ch =
      some (if hasHistory c g m ch then files ++ [banFile g m ch] else files) := by
  unfold banFilesStep hasHistory
  rcases hr : c.GetMessageLog g.ID ch.ID m.User.ID with ⟨chLog, err⟩
  cases err with
  | some e => simp
  | none =>
    cases chLog with
    | nil => simp
    | cons x xs => simp [sortSort_ByID_eq, banFile]

theorem foldlM_banFilesStep (c : Context) (g : Guild) (m : GuildBanAdd)
    (chs : List Channel) (files : List File) :
    chs.foldlM (banFilesStep c g m) files =
      some (files ++ (chs.filter (hasHistory c g m)).map (banFile g m)) := by
  induction chs generalizing files with
  | nil => simp
  | cons ch chs ih =>
    rw [List.foldlM_cons, banFilesStep_eq]
    by_cases h : hasHistory c g m ch = true
    · simp [h, ih]
    · simp [h, ih]

/-- C4: when the guild is cached and the member record exists, `guildBanAddHandler` sends
one file for each channel whose log for the banned user is returned without error and is
non-empty, in channel enumeration order, and nothing for the other channels (a channel with
an empty log gets no file); when no channel contributes it sends the embed alone, with the
"No history" field added. -/
theorem guildBanAddHandler_files (c : Context) (m : GuildBanAdd) (g : Guild)
    (hg : c.StateGuild m.GuildID = Except.ok g)
    (hm : c.GetMember m.GuildID m.User.ID = none) :
    guildBanAddHandler c m =
      some [if g.Channels.filter (hasHistory c g m) = [] then
          ApiCall.ChannelMessageSendEmbed c.BanLog
            { banEmbed c g m with Fields := (banEmbed c g m).Fields ++
                [{ Name := "24h user log", Value := "No history" }] }
        else
          ApiCall.ChannelMessageSendComplex c.BanLog (banEmbed c g m)
            ((g.Channels.filter (hasHistory c g m)).map (banFile g m))] := by
  unfold guildBanAddHandler
  simp only [hg, hm, foldlM_banFilesStep, List.nil_append]
  by_cases h : g.Channels.filter (hasHistory c g m) = []
  · simp [h]
  · have hlen : ((g.Channels.filter (hasHistory c g m)).map (banFile g m)).length ≠ 0 := by
      simpa using h
    simp [h, hlen]

/-- Witness for C4: in the example guild, channels 1 and 4 hold messages of the banned user,
channel 2 holds none and the scan of channel 3 fails: two files are sent, for 1 and 4. -/
theorem guildBanAddHandler_files_witness :
    demoContext.StateGuild demoBan.GuildID = Except.ok demoGuild ∧
    demoContext.GetMember demoBan.GuildID demoBan.User.ID = none ∧
    (demoGuild.Channels.filter (hasHistory demoContext demoGuild demoBan)).map (fun ch => ch.ID)
      = ["1", "4"] ∧
    guildBanAddHandler demoContext demoBan =
      some [if demoGuild.Channels.filter (hasHistory demoContext demoGuild demoBan) = [] then
          ApiCall.ChannelMessageSendEmbed demoContext.BanLog
            { banEmbed demoContext demoGuild demoBan with
              Fields := (banEmbed demoContext demoGuild demoBan).Fields ++
                [{ Name := "24h user log", Value := "No history" }] }
        else
          ApiCall.ChannelMessageSendComplex demoContext.BanLog
            (banEmbed demoContext demoGuild demoBan)
            ((demoGuild.Channels.filter (hasHistory demoContext demoGuild demoBan)).map
              (banFile demoGuild demoBan))] :=
  ⟨rfl, rfl, by decide, guildBanAddHandler_files demoContext demoBan demoGuild rfl rfl⟩

/-- C5, the code at a failing input: for the example guild the handler sends one file for
channel 1 and one for channel 4, each with a `nil` reader, although the transcript it
built for channel 1 is the header followed by the two messages, oldest first. -/
theorem guildBanAddHandler_files_carry_nothing :
    guildBanAddHandler demoContext demoBan =
      some [ApiCall.ChannelMessageSendComplex "900" (banEmbed demoContext demoGuild demoBan)
        [{ Name := "1_1_42.txt", Reader := none }, { Name := "1_4_42.txt", Reader := none }]] ∧
    sortSort ByID.sortInterface (demoContext.GetMessageLog "1" "1" "42").1 =
      some [demoRecord "100" "earlier", demoRecord "300" "later"] ∧
    banTranscript demoContext demoBan { ID := "1", Name := "general", GuildID := "1" }
        [demoRecord "100" "earlier", demoRecord "300" "later"] =
      "Log for user: u#0001 (42); channel: general (1)\n\nContent: earlier\n\nContent: later\n" := by
  refine ⟨by decide, by decide, by decide⟩

/-- C6: a channel whose scan returns an error is skipped and the loop goes on: over any
channel list the loop leaves the same files as over the list with the failing channels
removed, and the handler makes the same calls as it does when the cached guild has lost
those channels. -/
theorem guildBanAddHandler_skips_failing (c : Context) (m : GuildBanAdd) :
    (∀ (g : Guild) (chs : List Channel) (files : List File),
      chs.foldlM (banFilesStep c g m) files =
        (chs.filter (fun ch => (c.GetMessageLog g.ID ch.ID m.User.ID).2.isNone)).foldlM
          (banFilesStep c g m) files) ∧
    guildBanAddHandler c m = guildBanAddHandler (withoutFailingChannels c m) m := by
  have hfilter : ∀ (g : Guild) (chs : List Channel),
      (chs.filter (fun ch => (c.GetMessageLog g.ID ch.ID m.User.ID).2.isNone)).filter
        (hasHistory c g m) = chs.filter (hasHistory c g m) := by
    intro g chs
    rw [List.filter_filter]
    congr 1
    funext ch
    unfold hasHistory
    cases (c.GetMessageLog g.ID ch.ID m.User.ID).2 <;> simp
  refine ⟨?_, ?_⟩
  · intro g chs files
    rw [foldlM_banFilesStep, foldlM_banFilesStep, hfilter]
  · unfold guildBanAddHandler
    cases hg : c.StateGuild m.GuildID with
    | error e => simp [withoutFailingChannels, hg]
    | ok g =>
      have hg2 : (withoutFailingChannels c m).StateGuild m.GuildID =
          Except.ok { g with Channels :=
            g.Channels.filter (fun ch => (c.GetMessageLog g.ID ch.ID m.User.ID).2.isNone) } := by
        simp [withoutFailingChannels, hg]
      rw [hg2]
      simp only [foldlM_banFilesStep, List.nil_append]
      have h1 : ∀ g2 : Guild, hasHistory (withoutFailingChannels c m) g2 m = hasHistory c g2 m :=
        fun _ => rfl
      have h2 : ∀ g2 : Guild, banEmbed (withoutFailingChannels c m) g2 m = banEmbed c g2 m :=
        fun _ => rfl
      have h3 : ∀ chs : List Channel,
          hasHistory c { g with Channels := chs } m = hasHistory c g m := fun _ => rfl
      have h4 : ∀ chs : List Channel,
          banEmbed c { g with Channels := chs } m = banEmbed c g m := fun _ => rfl
      have h5 : ∀ chs : List Channel,
          banFile { g with Channels := chs } m = banFile g m := fun _ => rfl
      have h6 : (withoutFailingChannels c m).GetMember = c.GetMember := rfl
      have h7 : (withoutFailingChannels c m).BanLog = c.BanLog := rfl
      simp only [h1, h2, h3, h4, h5, h6, h7, hfilter]

/-! ## Theorems on the message key -/

theorem colon_not_digit (l : List Char) (h : ∀ c ∈ l, c.isDigit = true) : ':' ∉ l := by
  intro hmem
  have := isDigit_bounds ':' (h ':' hmem)
  have h58 : (':' : Char).toNat = 58 := rfl
  omega

theorem append_colon_cancel (a b r t : List Char) (ha : ':' ∉ a) (hb : ':' ∉ b)
    (h : a ++ ':' :: r = b ++ ':' :: t) : a = b ∧ r = t := by
  induction a generalizing b with
  | nil =>
    cases b with
    | nil => simpa using h
    | cons y ys =>
      simp only [List.nil_append, List.cons_append, List.cons.injEq] at h
      exact absurd (h.1 ▸ List.mem_cons_self y ys) hb
  | cons x xs ih =>
    cases b with
    | nil =>
      simp only [List.nil_append, List.cons_append, List.cons.injEq] at h
      exact absurd (h.1 ▸ List.mem_cons_self x xs) ha
    | cons y ys =>
      simp only [List.cons_append, List.cons.injEq] at h
      have hxs : ':' ∉ xs := fun hm => ha (List.mem_cons_of_mem x hm)
      have hys : ':' ∉ ys := fun hm => hb (List.mem_cons_of_mem y hm)
      obtain ⟨h1, h2⟩ := ih ys hxs hys h.2
      exact ⟨by rw [h.1, h1], h2⟩

theorem messageKey_data (g c m : String) :
    (messageKey g c m).data = g.data ++ ':' :: (c.data ++ ':' :: m.data) := by
  simp [messageKey, String.data_append]

theorem channelPrefix_data (g c : String) :
    (channelPrefix g c).data = g.data ++ ':' :: (c.data ++ [':']) := by
  simp [channelPrefix, String.data_append]

/-- C10: the message key is injective on decimal digit strings, and a key begins with the
prefix of the channel `(g, c)`, that is `g`, separator, `c`, separator, exactly when its
guild is `g` and its channel is `c`. Only the guild and channel identifiers need to be digit
strings; the message identifiers may be any strings. -/
theorem messageKey_injective (g c m g2 c2 m2 : String)
    (hg : isDigitString g = true) (hc : isDigitString c = true)
    (hg2 : isDigitString g2 = true) (hc2 : isDigitString c2 = true) :
    (messageKey g c m = messageKey g2 c2 m2 → g = g2 ∧ c = c2 ∧ m = m2) ∧
    (hasPrefix (messageKey g2 c2 m2) (channelPrefix g c) = true ↔ g = g2 ∧ c = c2) := by
  unfold isDigitString at hg hc hg2 hc2
  rw [List.all_eq_true] at hg hc hg2 hc2
  have ng := colon_not_digit _ hg
  have nc := colon_not_digit _ hc
  have ng2 := colon_not_digit _ hg2
  have nc2 := colon_not_digit _ hc2
  constructor
  · intro h
    have hd := congrArg String.data h
    rw [messageKey_data, messageKey_data] at hd
    obtain ⟨h1, h2⟩ := append_colon_cancel _ _ _ _ ng ng2 hd
    obtain ⟨h3, h4⟩ := append_colon_cancel _ _ _ _ nc nc2 h2
    exact ⟨String.ext h1, String.ext h3, String.ext h4⟩
  · unfold hasPrefix
    rw [List.isPrefixOf_iff_prefix, messageKey_data, channelPrefix_data]
    constructor
    · rintro ⟨t, ht⟩
      have ht2 : g.data ++ ':' :: (c.data ++ ':' :: t) =
          g2.data ++ ':' :: (c2.data ++ ':' :: m2.data) := by
        rw [← ht]; simp
      obtain ⟨h1, h2⟩ := append_colon_cancel _ _ _ _ ng ng2 ht2
      obtain ⟨h3, _⟩ := append_colon_cancel _ _ _ _ nc nc2 h2
      exact ⟨String.ext h1, String.ext h3⟩
    · rintro ⟨h1, h2⟩
      subst h1 h2
      exact ⟨m2.data, by simp⟩

/-- Witness for C10: the keys of `(1, 23, 4)` and `(12, 3, 4)` differ, and the key of
`(1, 23, 4)` does not begin with the prefix of the channel `(1, 2)`. -/
theorem messageKey_injective_witness :
    messageKey "1" "23" "4" = "1:23:4" ∧
    (messageKey "1" "23" "4" = messageKey "12" "3" "4" → "1" = "12" ∧ "23" = "3" ∧ "4" = "4") ∧
    (hasPrefix (messageKey "1" "23" "4") (channelPrefix "1" "2") = true ↔
      "1" = "1" ∧ "2" = "23") :=
  ⟨by decide,
   (messageKey_injective "1" "23" "4" "12" "3" "4" (by decide) (by decide) (by decide)
      (by decide)).1,
   (messageKey_injective "1" "2" "4" "1" "23" "4" (by decide) (by decide) (by decide)
      (by decide)).2⟩

/-! ## Lemmas on `strconv.ParseInt` -/

theorem le_foldl_digits (cs : List Char) (n : Nat) :
    n ≤ cs.foldl (fun n c => 10 * n + digitValue c) n := by
  induction cs generalizing n with
  | nil => exact Nat.le_refl n
  | cons c cs ih =>
    have := ih (10 * n + digitValue c)
    simp only [List.foldl_cons]
    omega

theorem ParseUint_loop_digits (b0 : Bool) (cs : List Char) (n : Nat) (us : Bool)
    (hd : ∀ c ∈ cs, c.isDigit = true)
    (hv : cs.foldl (fun n c => 10 * n + digitValue c) n < 2 ^ 62) :
    ParseUint.loop b0 10 ((2 ^ 64 - 1) / 10 + 1) (2 ^ 63 - 1) cs n us =
      Except.ok (cs.foldl (fun n c => 10 * n + digitValue c) n, us) := by
  induction cs generalizing n with
  | nil => rfl
  | cons c cs ih =>
    have hc := isDigit_bounds c (hd c (List.mem_cons_self c cs))
    have hcs : ∀ d ∈ cs, d.isDigit = true := fun d hm => hd d (List.mem_cons_of_mem c hm)
    simp only [List.foldl_cons] at hv ⊢
    have hmono := le_foldl_digits cs (10 * n + digitValue c)
    have hdv : digitValue c = c.toNat - 48 := rfl
    have h0 : ('0' : Char).toNat = 48 := rfl
    have h9 : ('9' : Char).toNat = 57 := rfl
    have hu : ('_' : Char).toNat = 95 := rfl
    have hne : ¬ (c.toNat = 95 ∧ b0 = true) := fun h => by omega
    have hdig : 48 ≤ c.toNat ∧ c.toNat ≤ 57 := hc
    have hbase : ¬ (c.toNat - 48 ≥ 10) := by omega
    have hcut : ¬ (n ≥ (2 ^ 64 - 1) / 10 + 1) := by norm_num; omega
    have hn0 : n * 10 % 2 ^ 64 = n * 10 := Nat.mod_eq_of_lt (by norm_num; omega)
    have hn1 : (n * 10 + (c.toNat - 48)) % 2 ^ 64 = 10 * n + digitValue c :=
      by rw [Nat.mod_eq_of_lt (by norm_num; omega)]; omega
    have hrange : ¬ (10 * n + digitValue c < n * 10 ∨ 10 * n + digitValue c > 2 ^ 63 - 1) := by
      norm_num; omega
    rw [ParseUint.loop]
    simp only [h0, h9, hu, hne, if_false, hdig, and_self, if_true, hbase, hcut, hn0, hn1, hrange]
    exact ih (10 * n + digitValue c) hcs hv

theorem ParseUint_loop_nondigit (b0 : Bool) (cutoff maxVal : Nat) (cs : List Char) (n : Nat)
    (us : Bool) (hu : '_' ∉ cs) (hnd : ∃ c ∈ cs, c.isDigit = false) :
    ∃ e, ParseUint.loop b0 10 cutoff maxVal cs n us = Except.error e ∧
      (e.2 = NumError.ErrSyntax ∨ e.1 = maxVal) := by
  induction cs generalizing n with
  | nil =>
    obtain ⟨c, hc, _⟩ := hnd
    exact absurd hc (List.not_mem_nil c)
  | cons c cs ih =>
    have h0 : ('0' : Char).toNat = 48 := rfl
    have h9 : ('9' : Char).toNat = 57 := rfl
    have h_ : ('_' : Char).toNat = 95 := rfl
    have ha : ('a' : Char).toNat = 97 := rfl
    have hz : ('z' : Char).toNat = 122 := rfl
    have hcu : c ≠ '_' := fun h => hu (h ▸ List.mem_cons_self c cs)
    have hne : ¬ (c.toNat = 95 ∧ b0 = true) := by
      rintro ⟨h, _⟩
      apply hcu
      rw [← Char.ofNat_toNat c, h]
    have hcs : '_' ∉ cs := fun hm => hu (List.mem_cons_of_mem c hm)
    rw [ParseUint.loop]
    simp only [h0, h9, h_, ha, hz, hne, if_false]
    by_cases hdig : 48 ≤ c.toNat ∧ c.toNat ≤ 57
    · have hrest : ∃ d ∈ cs, d.isDigit = false := by
        obtain ⟨d, hd, hdd⟩ := hnd
        rcases List.mem_cons.mp hd with rfl | hmem
        · exfalso
          have : d.isDigit = true := by
            simp only [Char.isDigit, Bool.and_eq_true, decide_eq_true_eq]
            exact ⟨hdig.1, hdig.2⟩
          rw [this] at hdd
          exact Bool.noConfusion hdd
        · exact ⟨d, hmem, hdd⟩
      have hbase : ¬ (c.toNat - 48 ≥ 10) := by omega
      simp only [hdig, and_self, if_true, hbase, if_false]
      by_cases hcut : n ≥ cutoff
      · exact ⟨_, by rw [if_pos hcut], Or.inr rfl⟩
      · rw [if_neg hcut]
        by_cases hr : (n * 10 % 2 ^ 64 + (c.toNat - 48)) % 2 ^ 64 < n * 10 % 2 ^ 64 ∨
            (n * 10 % 2 ^ 64 + (c.toNat - 48)) % 2 ^ 64 > maxVal
        · exact ⟨_, by rw [if_pos hr], Or.inr rfl⟩
        · rw [if_neg hr]
          exact ih _ hcs hrest
    · simp only [hdig, if_false]
      by_cases hlet : 97 ≤ lower c.toNat ∧ lower c.toNat ≤ 122
      · have hbase : lower c.toNat - 97 + 10 ≥ 10 := by omega
        simp only [hlet, and_self, if_true, hbase]
        exact ⟨_, rfl, Or.inl rfl⟩
      · simp only [hlet, if_false]
        exact ⟨_, rfl, Or.inl rfl⟩

theorem ParseUint_digits (c0 : Char) (rest : List Char)
    (hd : ∀ c ∈ c0 :: rest, c.isDigit = true) (hz : c0 ≠ '0')
    (hv : (c0 :: rest).foldl (fun n c => 10 * n + digitValue c) 0 < 2 ^ 62) :
    ParseUint (c0 :: rest) 0 63 =
      ((c0 :: rest).foldl (fun n c => 10 * n + digitValue c) 0, none) := by
  have hmax : (2 ^ 63 % 2 ^ 64 + 2 ^ 64 - 1) % 2 ^ 64 = 2 ^ 63 - 1 := by norm_num
  have hloop := ParseUint_loop_digits true (c0 :: rest) 0 false hd hv
  simp only [ParseUint, hz, if_true, if_false, hmax, decide_True, hloop]
  simp

theorem ParseUint_rejects (t : List Char) (hu : '_' ∉ t) (hz : t.head? ≠ some '0')
    (hnd : t = [] ∨ ∃ c ∈ t, c.isDigit = false) :
    ∃ v err, ParseUint t 0 63 = (v, some err) ∧ (err = NumError.ErrSyntax ∨ v = 2 ^ 63 - 1) := by
  cases t with
  | nil => exact ⟨0, NumError.ErrSyntax, rfl, Or.inl rfl⟩
  | cons c0 rest =>
    have hc0 : c0 ≠ '0' := fun h => hz (by rw [h]; rfl)
    have hnd2 : ∃ c ∈ c0 :: rest, c.isDigit = false := by
      rcases hnd with h | h
      · exact absurd h (List.cons_ne_nil c0 rest)
      · exact h
    have hmax : (2 ^ 63 % 2 ^ 64 + 2 ^ 64 - 1) % 2 ^ 64 = 2 ^ 63 - 1 := by norm_num
    obtain ⟨e, he, hprop⟩ := ParseUint_loop_nondigit true ((2 ^ 64 - 1) / 10 + 1) (2 ^ 63 - 1)
      (c0 :: rest) 0 false hu hnd2
    refine ⟨e.1, e.2, ?_, hprop⟩
    simp only [ParseUint, hc0, if_true, if_false, hmax, decide_True, he]

theorem ParseInt_rejects (s : String) (v : Nat) (err : NumError)
    (hp : ParseUint (unsignedPart s) 0 63 = (v, some err))
    (hprop : err = NumError.ErrSyntax ∨ v = 2 ^ 63 - 1) :
    (ParseInt s 0 63).2 ≠ none := by
  unfold ParseInt
  unfold unsignedPart at hp
  cases hdata : s.data with
  | nil => simp
  | cons c0 rest =>
    rw [hdata] at hp
    simp only at hp ⊢
    have hs1 : (if c0 = '+' then rest else if c0 = '-' then rest else c0 :: rest) =
        (if c0 = '+' ∨ c0 = '-' then rest else c0 :: rest) := by
      by_cases h1 : c0 = '+'
      · simp [h1]
      · by_cases h2 : c0 = '-'
        · simp [h2]
        · simp [h1, h2]
    rw [hs1, hp]
    rcases hprop with hsyn | hval
    · subst hsyn
      simp
    · subst hval
      cases err with
      | ErrSyntax => simp
      | ErrRange =>
        by_cases hneg : c0 = '-'
        · simp [hneg]
        · simp [hneg]

theorem exists_nondigit (l : List Char) (h : l.all Char.isDigit = false) :
    ∃ c ∈ l, c.isDigit = false := by
  by_contra hcon
  have hall : l.all Char.isDigit = true := by
    rw [List.all_eq_true]
    intro c hc
    cases hd : c.isDigit with
    | true => rfl
    | false => exact absurd ⟨c, hc, hd⟩ hcon
  rw [hall] at h
  exact Bool.noConfusion h

/-! ## Theorems on the snowflake decoding -/

/-- C8, as the code has it: for every identifier that is a decimal digit string without a
leading zero (or the string "0") and whose value `n` is below `2^62`, the snowflake
decoding of the join handler succeeds and yields the instant whose Unix time in seconds is
`floor((floor(n / 2^22) + 1420070400000) / 1000)`. -/
theorem snowflakeTime_digits (s : String) (hd : isDigitString s = true) (hne : s ≠ "")
    (hz : s.data.head? ≠ some '0' ∨ s = "0") (hv : decimalValue s < 2 ^ 62) :
    snowflakeTime s =
      Except.ok (((decimalValue s / 2 ^ 22 + 1420070400000) / 1000 : Nat) : Int) := by
  rcases hz with hz | rfl
  · unfold isDigitString at hd
    rw [List.all_eq_true] at hd
    unfold decimalValue at hv ⊢
    cases hdata : s.data with
    | nil => exact absurd (String.ext hdata) hne
    | cons c0 rest =>
      rw [hdata] at hd hv hz
      have hc0 : c0 ≠ '0' := fun h => hz (by rw [h]; rfl)
      have hb := isDigit_bounds c0 (hd c0 (List.mem_cons_self c0 rest))
      have hplus : c0 ≠ '+' := by
        intro h; rw [h] at hb
        have : ('+' : Char).toNat = 43 := rfl
        omega
      have hminus : c0 ≠ '-' := by
        intro h; rw [h] at hb
        have : ('-' : Char).toNat = 45 := rfl
        omega
      have hpu := ParseUint_digits c0 rest hd hc0 hv
      generalize hval : (c0 :: rest).foldl (fun n c => 10 * n + digitValue c) 0 = v at hpu hv
      have hparse : ParseInt s 0 63 = ((v : Int), none) := by
        unfold ParseInt
        rw [hdata]
        have hcut : ¬ (v ≥ 2 ^ (63 - 1)) := by norm_num; omega
        have hv2 : v < 4611686018427387904 := by norm_num at hv; exact hv
        simp only [hplus, hminus, if_false, hpu, decide_False]
        simp [hv2]
      unfold snowflakeTime
      rw [hparse]
      simp only
      have hshift : ((v : Int) >>> (22 : Nat)) = ((v / 2 ^ 22 : Nat) : Int) := by
        rw [Int.shiftRight_eq_div_pow]
        norm_cast
      have hlt : v / 2 ^ 22 < 2 ^ 40 := by
        rw [Nat.div_lt_iff_lt_mul (by norm_num)]
        norm_num
        omega
      have hwrap : wrapInt64 (((v / 2 ^ 22 : Nat) : Int) + 1420070400000) =
          ((v / 2 ^ 22 + 1420070400000 : Nat) : Int) := by
        unfold wrapInt64
        push_cast
        norm_num at hlt ⊢
        omega
      rw [hshift, hwrap]
      exact congrArg Except.ok (Int.ofNat_tdiv (v / 2 ^ 22 + 1420070400000) 1000).symm
  · rfl

/-- Witness for C8: the identifier 175928847299117063 decodes to the Unix time 1462015105. -/
theorem snowflakeTime_digits_witness :
    isDigitString "175928847299117063" = true ∧
    decimalValue "175928847299117063" < 2 ^ 62 ∧
    snowflakeTime "175928847299117063" =
      Except.ok (((decimalValue "175928847299117063" / 2 ^ 22 + 1420070400000) / 1000 : Nat) : Int) ∧
    ((decimalValue "175928847299117063" / 2 ^ 22 + 1420070400000) / 1000 : Nat) = 1462015105 :=
  ⟨by decide, by decide,
   snowflakeTime_digits "175928847299117063" (by decide) (by decide) (Or.inl (by decide))
     (by decide),
   by decide⟩

/-- C8 as stated fails: `2^62` is a decimal digit string whose value fits in a signed 64-bit
integer, and so is "09", yet the decoding of either fails (`ParseInt` is called with bit
size 63 and base 0, which reads a leading zero as octal). -/
theorem snowflakeTime_range_counterexample :
    isDigitString "4611686018427387904" = true ∧
    decimalValue "4611686018427387904" < 2 ^ 63 ∧
    snowflakeTime "4611686018427387904" = Except.error NumError.ErrRange ∧
    isDigitString "09" = true ∧
    snowflakeTime "09" = Except.error NumError.ErrSyntax :=
  ⟨by decide, by decide, by rfl, by decide, by rfl⟩

/-- C9, as the code has it: the snowflake decoding is a total function of the string, so it
never crashes and gives the same outcome on every call; and it fails for every string that
is not a decimal integer, provided the string has no underscore and its unsigned part does
not begin with `0` (base 0 makes `ParseInt` accept the prefixes `0b`, `0o`, `0x` and `0`
and underscores between digits). -/
theorem snowflakeTime_rejects (s : String) :
    ((∃ e, snowflakeTime s = Except.error e) ∨ (∃ t, snowflakeTime s = Except.ok t)) ∧
    (isDecimalInteger s = false → '_' ∉ s.data → (unsignedPart s).head? ≠ some '0' →
      ∃ e, snowflakeTime s = Except.error e) := by
  constructor
  · cases h : snowflakeTime s with
    | error e => exact Or.inl ⟨e, rfl⟩
    | ok t => exact Or.inr ⟨t, rfl⟩
  · intro hnot hu hz
    have hsub : ∀ c ∈ unsignedPart s, c ∈ s.data := by
      intro c hc
      unfold unsignedPart at hc
      cases hdata : s.data with
      | nil => rw [hdata] at hc; exact absurd hc (List.not_mem_nil c)
      | cons c0 rest =>
        rw [hdata] at hc
        simp only at hc
        split_ifs at hc
        · exact List.mem_cons_of_mem c0 hc
        · exact hc
    have hu2 : '_' ∉ unsignedPart s := fun h => hu (hsub _ h)
    have hnd : unsignedPart s = [] ∨ ∃ c ∈ unsignedPart s, c.isDigit = false := by
      unfold isDecimalInteger at hnot
      unfold unsignedPart
      cases hdata : s.data with
      | nil => exact Or.inl rfl
      | cons c0 rest =>
        rw [hdata] at hnot
        simp only at hnot ⊢
        by_cases hsign : c0 = '+' ∨ c0 = '-'
        · rw [if_pos hsign] at hnot ⊢
          cases rest with
          | nil => exact Or.inl rfl
          | cons c1 r =>
            simp only [List.isEmpty_cons, Bool.not_false, Bool.true_and] at hnot
            exact Or.inr (exists_nondigit _ hnot)
        · rw [if_neg hsign] at hnot ⊢
          exact Or.inr (exists_nondigit _ hnot)
    obtain ⟨v, err, hp, hprop⟩ := ParseUint_rejects (unsignedPart s) hu2 hz hnd
    have hpi := ParseInt_rejects s v err hp hprop
    unfold snowflakeTime
    rcases hres : ParseInt s 0 63 with ⟨x, e⟩
    rw [hres] at hpi
    cases e with
    | none => exact absurd rfl hpi
    | some e => exact ⟨e, rfl⟩

/-- Witness for C9: the strings "12a4", "" and "-" are not decimal integers, and decoding
them fails. -/
theorem snowflakeTime_rejects_witness :
    isDecimalInteger "12a4" = false ∧ '_' ∉ "12a4".data ∧
    (unsignedPart "12a4").head? ≠ some '0' ∧
    (∃ e, snowflakeTime "12a4" = Except.error e) ∧
    snowflakeTime "12a4" = Except.error NumError.ErrSyntax ∧
    (∃ e, snowflakeTime "-" = Except.error e) :=
  ⟨by decide, by decide, by decide,
   (snowflakeTime_rejects "12a4").2 (by decide) (by decide) (by decide),
   by rfl,
   (snowflakeTime_rejects "-").2 (by decide) (by decide) (by decide)⟩

/-- C9 as stated fails: "0x10" and "1_0" are not decimal integers, yet decoding them
succeeds. -/
theorem snowflakeTime_accepts_hex :
    isDecimalInteger "0x10" = false ∧
    snowflakeTime "0x10" = Except.ok 1420070400 ∧
    (ParseInt "0x10" 0 63).1 = 16 ∧
    isDecimalInteger "1_0" = false ∧
    snowflakeTime "1_0" = Except.ok 1420070400 ∧
    (ParseInt "1_0" 0 63).1 = 10 :=
  ⟨by decide, by rfl, by decide, by decide, by rfl, by decide⟩

/-! ## Theorems on `MessageUpdateHandler` -/

theorem lookup_filter_ne (db : Store) (key k : String) (h : k ≠ key) :
    (db.filter (fun e => e.1 != key)).lookup k = db.lookup k := by
  induction db with
  | nil => rfl
  | cons e db ih =>
    obtain ⟨k1, r1⟩ := e
    by_cases hk : k1 = key
    · subst hk
      have hne : (k == k1) = false := by simpa using h
      simp [List.filter_cons, List.lookup_cons, hne, ih]
    · have hk2 : (k1 != key) = true := by simpa using hk
      simp only [List.filter_cons, hk2, if_true, List.lookup_cons, ih]

theorem GetMessage_SetMessage (fetch : Message → List Bytes) (db : Store) (msg : Message) :
    GetMessage (SetMessage fetch db msg) (messageKey msg.GuildID msg.ChannelID msg.ID) =
      Except.ok { Message := msg, Attachments := fetch msg } := by
  simp [GetMessage, SetMessage, List.lookup_cons]

theorem GetMessage_SetMessage_ne (fetch : Message → List Bytes) (db : Store) (msg : Message)
    (k : String) (h : k ≠ messageKey msg.GuildID msg.ChannelID msg.ID) :
    GetMessage (SetMessage fetch db msg) k = GetMessage db k := by
  have hne : (k == messageKey msg.GuildID msg.ChannelID msg.ID) = false := by simpa using h
  simp only [GetMessage, SetMessage, List.lookup_cons, hne, lookup_filter_ne db _ k h]

/-- C7, as the code has it: for every edit event with non-empty new content whose guild is
in the session state, that names an existing stored record (the record under the key of
the event carries the identifiers of the event) and whose new content differs from the
stored content, `MessageUpdateHandler` writes back the stored message with its content
replaced by the new content and every other field unchanged, so that a subsequent get of
the same key returns the new content; the records under all other keys are untouched. -/
theorem MessageUpdateHandler_overwrites (c : MainContext) (m : MessageUpdate) (db : Store)
    (g : Guild) (oldm : DiscordMessage)
    (hne : m.Message.Content ≠ "")
    (hg : c.StateGuild m.Message.GuildID = Except.ok g)
    (hget : GetMessage db (messageKey m.Message.GuildID m.Message.ChannelID m.Message.ID) =
      Except.ok oldm)
    (hid : oldm.Message.GuildID = m.Message.GuildID ∧
      oldm.Message.ChannelID = m.Message.ChannelID ∧ oldm.Message.ID = m.Message.ID)
    (hdiff : oldm.Message.Content ≠ m.Message.Content) :
    (MessageUpdateHandler c m db).1 =
      SetMessage c.fetch db { oldm.Message with Content := m.Message.Content } ∧
    (∃ r, GetMessage (MessageUpdateHandler c m db).1
        (messageKey m.Message.GuildID m.Message.ChannelID m.Message.ID) = Except.ok r ∧
      r.Message = { oldm.Message with Content := m.Message.Content } ∧
      r.Message.Content = m.Message.Content) ∧
    (∀ k, k ≠ messageKey m.Message.GuildID m.Message.ChannelID m.Message.ID →
      GetMessage (MessageUpdateHandler c m db).1 k = GetMessage db k) := by
  obtain ⟨h1, h2, h3⟩ := hid
  have hrun : (MessageUpdateHandler c m db).1 =
      SetMessage c.fetch db { oldm.Message with Content := m.Message.Content } := by
    unfold MessageUpdateHandler
    simp only [hne, if_false, hg, hget, hdiff]
  have hkey : messageKey m.Message.GuildID m.Message.ChannelID m.Message.ID =
      messageKey ({ oldm.Message with Content := m.Message.Content } : Message).GuildID
        ({ oldm.Message with Content := m.Message.Content } : Message).ChannelID
        ({ oldm.Message with Content := m.Message.Content } : Message).ID := by
    simp only [h1, h2, h3]
  refine ⟨hrun, ?_, ?_⟩
  · rw [hrun, hkey, GetMessage_SetMessage]
    exact ⟨_, rfl, rfl, rfl⟩
  · intro k hk
    rw [hrun]
    rw [hkey] at hk
    exact GetMessage_SetMessage_ne c.fetch db _ k hk

/-- Witness for C7: with the message `(g=1, c=1, m=100, author=42, content="hi")` stored,
the edit to "hi there" makes the get of `(1, 1, 100)` return the content "hi there". -/
theorem MessageUpdateHandler_overwrites_witness :
    storedContent demoStore (messageKey "1" "1" "100") = some "hi" ∧
    storedContent
      (MessageUpdateHandler demoMain { Message := demoMessage "100" "hi there" [] } demoStore).1
      (messageKey "1" "1" "100") = some "hi there" ∧
    (MessageUpdateHandler demoMain { Message := demoMessage "100" "hi there" [] } demoStore).1 =
      SetMessage demoMain.fetch demoStore (demoMessage "100" "hi there" []) :=
  ⟨by decide, by decide,
   (MessageUpdateHandler_overwrites demoMain { Message := demoMessage "100" "hi there" [] }
      demoStore demoGuild { Message := demoMessage "100" "hi" [], Attachments := [] }
      (by decide) rfl rfl ⟨rfl, rfl, rfl⟩ (by decide)).1⟩

/-- C7 as stated fails: an edit event that names the stored message `(1, 1, 100)` with
content "hi" and carries the empty content, which differs from the stored one, is taken for
an image update: the handler returns at once, and the get of `(1, 1, 100)` still returns
"hi". The same happens to a real edit when the guild is not in the session state. -/
theorem MessageUpdateHandler_keeps_on_empty_content :
    storedContent demoStore (messageKey "1" "1" "100") = some "hi" ∧
    MessageUpdateHandler demoMain { Message := demoMessage "100" "" [] } demoStore =
      (demoStore, []) ∧
    storedContent (MessageUpdateHandler demoMain { Message := demoMessage "100" "" [] } demoStore).1
      (messageKey "1" "1" "100") = some "hi" ∧
    storedContent
      (MessageUpdateHandler { demoMain with StateGuild := fun _ => Except.error "not cached" }
        { Message := demoMessage "100" "hi there" [] } demoStore).1
      (messageKey "1" "1" "100") = some "hi" := by
  refine ⟨by decide, by decide, by decide, by decide⟩

/-! ## Theorems on the size of the stored payloads -/

theorem mem_fetchedPayloads {σ ρ ε : Type} (h : Http σ ρ ε) (atts : List MessageAttachment)
    (w : σ) (data : Bytes) (hd : data ∈ (fetchedPayloads h atts w).1) :
    ∃ a ∈ atts, ∃ w0 w1, GetAttachment h a.URL w0 = ((data, none), w1) := by
  induction atts generalizing w with
  | nil => simp [fetchedPayloads] at hd
  | cons a rest ih =>
    rcases hg : GetAttachment h a.URL w with ⟨⟨d, err⟩, w1⟩
    cases err with
    | some e =>
      simp only [fetchedPayloads, hg] at hd
      obtain ⟨b, hb, hw⟩ := ih w1 hd
      exact ⟨b, List.mem_cons_of_mem a hb, hw⟩
    | none =>
      simp only [fetchedPayloads, hg, List.mem_cons] at hd
      rcases hd with rfl | hd
      · exact ⟨a, List.mem_cons_self a rest, w, w1, hg⟩
      · obtain ⟨b, hb, hw⟩ := ih w1 hd
        exact ⟨b, List.mem_cons_of_mem a hb, hw⟩

/-- C11, as the code has it: every byte sequence in the `Attachments` of the record built by
`NewDiscordMessage` is the payload that a successful fetch returned for an attachment of the
message whose declared `Size` is at most `maxSize`; the length of the payload itself is not
looked at. -/
theorem NewDiscordMessage_payload_of_eligible {σ ρ ε : Type} (h : Http σ ρ ε) (msg : Message)
    (maxSize : Int) (w : σ) :
    ∀ data ∈ (NewDiscordMessage h msg maxSize w).1.Attachments,
      ∃ a ∈ msg.Attachments, a.Size ≤ maxSize ∧
        ∃ w0 w1, GetAttachment h a.URL w0 = ((data, none), w1) := by
  intro data hd
  simp only [NewDiscordMessage, foldl_attachStep, List.nil_append] at hd
  obtain ⟨a, ha, hw⟩ := mem_fetchedPayloads h _ w data hd
  rw [List.mem_filter] at ha
  exact ⟨a, ha.1, by simpa using ha.2, hw⟩

/-- Witness for C11: the one payload of the example record is the answer to the request for
its attachment, whose declared size is within the cap. -/
theorem NewDiscordMessage_payload_of_eligible_witness :
    ([1, 2] : Bytes) ∈
      (NewDiscordMessage demoHttp (demoMessage "100" "hi" [demoAttachment "ok" 10]) 10 0).1.Attachments ∧
    ∃ a ∈ (demoMessage "100" "hi" [demoAttachment "ok" 10]).Attachments, a.Size ≤ 10 ∧
      ∃ w0 w1, GetAttachment demoHttp a.URL w0 = (([1, 2], none), w1) :=
  have hmem : ([1, 2] : Bytes) ∈
      (NewDiscordMessage demoHttp (demoMessage "100" "hi" [demoAttachment "ok" 10]) 10 0).1.Attachments :=
    by decide
  ⟨hmem,
   NewDiscordMessage_payload_of_eligible demoHttp
     (demoMessage "100" "hi" [demoAttachment "ok" 10]) 10 0 [1, 2] hmem⟩

/-- C11 as stated fails: an attachment declared one byte long, with the cap at one byte,
whose fetch returns two bytes is stored with both bytes. -/
theorem NewDiscordMessage_keeps_long_payload :
    (demoAttachment "ok" 1).Size ≤ 1 ∧
    (NewDiscordMessage demoHttp (demoMessage "100" "hi" [demoAttachment "ok" 1]) 1 0).1.Attachments
      = [[1, 2]] ∧
    ¬ ∀ data ∈
        (NewDiscordMessage demoHttp (demoMessage "100" "hi" [demoAttachment "ok" 1]) 1 0).1.Attachments,
        (data.length : Int) ≤ 1 := by
  refine ⟨by decide, by decide, by decide⟩

/-! ## Theorems on `ByID.Less` -/

theorem numeric_of_sorted (out : List DiscordMessage) (k : Nat)
    (hmem : ∀ r ∈ out, isDigitString r.Message.ID = true ∧ r.Message.ID.length = k)
    (hsorted : out.Pairwise (fun a b => stringLess b.Message.ID a.Message.ID = false)) :
    out.Pairwise (fun a b => decimalValue a.Message.ID ≤ decimalValue b.Message.ID) := by
  refine List.Pairwise.imp_of_mem ?_ hsorted
  intro a b ha hb hab
  have hiff := stringLess_iff_decimalValue_lt b.Message.ID a.Message.ID (hmem b hb).1
    (hmem a ha).1 (by rw [(hmem a ha).2, (hmem b hb).2])
  by_contra hlt
  rw [not_le] at hlt
  rw [hiff.mpr hlt] at hab
  exact Bool.noConfusion hab

/-- C15: for every list of stored messages whose IDs are decimal digit strings of one common
length, `ByID.Less(i, j)` returns, and is true exactly when the numeric value of the ID of
message `i` is smaller than that of message `j`; so sorting the list with `ByID` returns a
permutation in ascending numeric order of the IDs. -/
theorem ByID_Less_iff_numeric (m : List DiscordMessage) (k : Nat)
    (hd : ∀ r ∈ m, isDigitString r.Message.ID = true ∧ r.Message.ID.length = k) :
    (∀ (i j : Nat) (hi : i < m.length) (hj : j < m.length),
      ByID.Less m i j =
        some (decide (decimalValue m[i].Message.ID < decimalValue m[j].Message.ID))) ∧
    (∃ out, sortSort ByID.sortInterface m = some out ∧ out.Perm m ∧
      out.Pairwise (fun a b => decimalValue a.Message.ID ≤ decimalValue b.Message.ID)) := by
  constructor
  · intro i j hi hj
    have h1 : m[i]? = some m[i] := List.getElem?_eq_getElem hi
    have h2 : m[j]? = some m[j] := List.getElem?_eq_getElem hj
    have hmi := hd m[i] (List.getElem_mem hi)
    have hmj := hd m[j] (List.getElem_mem hj)
    have hiff := stringLess_iff_decimalValue_lt m[i].Message.ID m[j].Message.ID hmi.1 hmj.1
      (by rw [hmi.2, hmj.2])
    simp only [ByID.Less, h1, h2]
    congr 1
    by_cases hlt : decimalValue m[i].Message.ID < decimalValue m[j].Message.ID
    · rw [hiff.mpr hlt]; simp [hlt]
    · have : stringLess m[i].Message.ID m[j].Message.ID = false := by
        cases hs : stringLess m[i].Message.ID m[j].Message.ID
        · rfl
        · exact absurd (hiff.mp hs) hlt
      rw [this]; simp [hlt]
  · obtain ⟨out, hout, hperm, hsorted⟩ := sortSort_ByID_sorted m
    exact ⟨out, hout, hperm,
      numeric_of_sorted out k (fun r hr => hd r (hperm.subset hr)) hsorted⟩

/-- Witness for C15: among the stored messages 300, 100, 200, `Less(1, 0)` is true, since
100 is smaller than 300, `Less(0, 1)` is false, and the list is sorted to 100, 200, 300. -/
theorem ByID_Less_iff_numeric_witness :
    (∀ r ∈ [demoRecord "300" "a", demoRecord "100" "b", demoRecord "200" "c"],
      isDigitString r.Message.ID = true ∧ r.Message.ID.length = 3) ∧
    ByID.Less [demoRecord "300" "a", demoRecord "100" "b", demoRecord "200" "c"] 1 0 = some true ∧
    ByID.Less [demoRecord "300" "a", demoRecord "100" "b", demoRecord "200" "c"] 0 1 =
      some (decide (decimalValue "300" < decimalValue "100")) ∧
    (sortSort ByID.sortInterface
        [demoRecord "300" "a", demoRecord "100" "b", demoRecord "200" "c"]).map
      (fun out => out.map (fun r => r.Message.ID)) = some ["100", "200", "300"] :=
  have hd : ∀ r ∈ [demoRecord "300" "a", demoRecord "100" "b", demoRecord "200" "c"],
      isDigitString r.Message.ID = true ∧ r.Message.ID.length = 3 := by decide
  ⟨hd, by decide,
   (ByID_Less_iff_numeric _ 3 hd).1 0 1 (by decide) (by decide),
   by decide⟩

/-! ## Theorems on the hackban path of `guildBanAddHandler` -/

/-- C12: `guildBanAddHandler` reports the ban as a hackban, that is under the title
"User banned - Hackban", if and only if the guild is cached and the member lookup fails with
key-not-found; the report is then the plain embed, with no history field and no files, and
the message logs are not consulted. When the lookup fails otherwise nothing is sent. When
the member record exists the title stays "User banned" and what is sent is the outcome of
the scan over the channels: the files of the channels with history, or the "No history"
field. -/
theorem guildBanAddHandler_hackban (c : Context) (m : GuildBanAdd) :
    ((∃ calls call, guildBanAddHandler c m = some calls ∧ call ∈ calls ∧
        call.embed.Title = "User banned - Hackban") ↔
      ∃ g, c.StateGuild m.GuildID = Except.ok g ∧
        c.GetMember m.GuildID m.User.ID = some StoreError.ErrKeyNotFound) ∧
    (∀ g, c.StateGuild m.GuildID = Except.ok g →
      c.GetMember m.GuildID m.User.ID = some StoreError.ErrKeyNotFound →
      guildBanAddHandler c m = some [ApiCall.ChannelMessageSendEmbed c.BanLog
        { banEmbed c g m with Title := "User banned - Hackban" }]) ∧
    (∀ g e, c.StateGuild m.GuildID = Except.ok g →
      c.GetMember m.GuildID m.User.ID = some e → e ≠ StoreError.ErrKeyNotFound →
      guildBanAddHandler c m = some []) ∧
    (∀ g, c.StateGuild m.GuildID = Except.ok g → c.GetMember m.GuildID m.User.ID = none →
      (banEmbed c g m).Title = "User banned" ∧
      ((g.Channels.filter (hasHistory c g m) = [] ∧
          guildBanAddHandler c m = some [ApiCall.ChannelMessageSendEmbed c.BanLog
            { banEmbed c g m with Fields := (banEmbed c g m).Fields ++
                [{ Name := "24h user log", Value := "No history" }] }]) ∨
        (g.Channels.filter (hasHistory c g m) ≠ [] ∧
          guildBanAddHandler c m = some [ApiCall.ChannelMessageSendComplex c.BanLog
            (banEmbed c g m) ((g.Channels.filter (hasHistory c g m)).map (banFile g m))]))) := by
  have hne : ("User banned" : String) ≠ "User banned - Hackban" := by decide
  have hhack : ∀ g, c.StateGuild m.GuildID = Except.ok g →
      c.GetMember m.GuildID m.User.ID = some StoreError.ErrKeyNotFound →
      guildBanAddHandler c m = some [ApiCall.ChannelMessageSendEmbed c.BanLog
        { banEmbed c g m with Title := "User banned - Hackban" }] := by
    intro g hg hm
    unfold guildBanAddHandler
    simp only [hg, hm, ne_eq, not_true_eq_false, if_false]
    rfl
  have hother : ∀ g e, c.StateGuild m.GuildID = Except.ok g →
      c.GetMember m.GuildID m.User.ID = some e → e ≠ StoreError.ErrKeyNotFound →
      guildBanAddHandler c m = some [] := by
    intro g e hg hm he
    unfold guildBanAddHandler
    simp only [hg, hm, ne_eq, he, not_false_eq_true, if_true]
  have hscan : ∀ g, c.StateGuild m.GuildID = Except.ok g →
      c.GetMember m.GuildID m.User.ID = none →
      (banEmbed c g m).Title = "User banned" ∧
      ((g.Channels.filter (hasHistory c g m) = [] ∧
          guildBanAddHandler c m = some [ApiCall.ChannelMessageSendEmbed c.BanLog
            { banEmbed c g m with Fields := (banEmbed c g m).Fields ++
                [{ Name := "24h user log", Value := "No history" }] }]) ∨
        (g.Channels.filter (hasHistory c g m) ≠ [] ∧
          guildBanAddHandler c m = some [ApiCall.ChannelMessageSendComplex c.BanLog
            (banEmbed c g m) ((g.Channels.filter (hasHistory c g m)).map (banFile g m))])) := by
    intro g hg hm
    refine ⟨rfl, ?_⟩
    unfold guildBanAddHandler
    simp only [hg, hm, foldlM_banFilesStep, List.nil_append]
    by_cases h : g.Channels.filter (hasHistory c g m) = []
    · exact Or.inl ⟨h, by simp [h]⟩
    · have hlen : ((g.Channels.filter (hasHistory c g m)).map (banFile g m)).length ≠ 0 := by
        simpa using h
      exact Or.inr ⟨h, by simp [h, hlen]⟩
  refine ⟨⟨?_, ?_⟩, hhack, hother, hscan⟩
  · rintro ⟨calls, call, hrun, hmem, ht⟩
    cases hg : c.StateGuild m.GuildID with
    | error err =>
      have : guildBanAddHandler c m = some [] := by
        unfold guildBanAddHandler
        simp only [hg]
      rw [this] at hrun
      cases hrun
      exact absurd hmem (List.not_mem_nil call)
    | ok g =>
      cases hm : c.GetMember m.GuildID m.User.ID with
      | some e =>
        by_cases he : e = StoreError.ErrKeyNotFound
        · exact ⟨g, rfl, by rw [he]⟩
        · rw [hother g e hg hm he] at hrun
          cases hrun
          exact absurd hmem (List.not_mem_nil call)
      | none =>
        exfalso
        obtain ⟨_, hcase⟩ := hscan g hg hm
        rcases hcase with ⟨_, h2⟩ | ⟨_, h2⟩
        · rw [h2] at hrun
          cases hrun
          rw [List.mem_singleton] at hmem
          subst hmem
          exact hne ht
        · rw [h2] at hrun
          cases hrun
          rw [List.mem_singleton] at hmem
          subst hmem
          exact hne ht
  · rintro ⟨g, hg, hm⟩
    exact ⟨_, _, hhack g hg hm, List.mem_singleton.mpr rfl, rfl⟩

/-- Witness for C12: user 7 was never a member of the example guild, and the ban of user 7
is reported by the plain embed titled "User banned - Hackban". -/
theorem guildBanAddHandler_hackban_witness :
    demoContext.StateGuild demoHackban.GuildID = Except.ok demoGuild ∧
    demoContext.GetMember demoHackban.GuildID demoHackban.User.ID =
      some StoreError.ErrKeyNotFound ∧
    guildBanAddHandler demoContext demoHackban =
      some [ApiCall.ChannelMessageSendEmbed demoContext.BanLog
        { banEmbed demoContext demoGuild demoHackban with Title := "User banned - Hackban" }] ∧
    (banEmbed demoContext demoGuild demoBan).Title = "User banned" :=
  ⟨rfl, rfl,
   (guildBanAddHandler_hackban demoContext demoHackban).2.1 demoGuild rfl rfl,
   ((guildBanAddHandler_hackban demoContext demoBan).2.2.2 demoGuild rfl rfl).1⟩

/-! ## Theorems on `messageDeleteHandler` -/

/-- C16, the code at a failing input: for a message whose only attachment is declared
larger than the cap of ten megabytes, `messageCreateHandler` stores the record built by
`NewDiscordMessage`, which holds no payload, and `messageDeleteHandler`, walking the one
declared attachment of that record, reads `msg.Attachments[0]` out of bounds and panics.
For a message whose first attachment cannot be fetched and whose second can, the one stored
payload is that of `b.png`; the loop hands it out under the name `a.png` and panics at the
second index. When every attachment was fetched the handler sends each under its name. -/
theorem messageDeleteHandler_panics_on_skipped :
    messageCreateHandler demoCreate
        { Message := demoMessage "100" "hi" [demoAttachment "ok" 10485761] } 0 =
      some [CreateEffect.SetMessage
        { Message := demoMessage "100" "hi" [demoAttachment "ok" 10485761], Attachments := [] }] ∧
    messageDeleteHandler
      (demoDelete
        { Message := demoMessage "100" "hi" [demoAttachment "ok" 10485761], Attachments := [] })
      { Message := demoMessage "100" "" [] } = none ∧
    (NewDiscordMessage demoHttp (demoMessage "100" "hi"
        [{ ID := "1", URL := "bad", Filename := "a.png", Size := 3 },
         { ID := "2", URL := "ok", Filename := "b.png", Size := 3 }]) (1024 * 1024 * 10) 0).1.Attachments
      = [[1, 2]] ∧
    deleteFilesLoop [[1, 2]] [{ ID := "1", URL := "bad", Filename := "a.png", Size := 3 }] 0 [] =
      some [{ Name := "a.png", Reader := some [1, 2] }] ∧
    messageDeleteHandler
      (demoDelete (NewDiscordMessage demoHttp (demoMessage "100" "hi"
        [{ ID := "1", URL := "bad", Filename := "a.png", Size := 3 },
         { ID := "2", URL := "ok", Filename := "b.png", Size := 3 }]) (1024 * 1024 * 10) 0).1)
      { Message := demoMessage "100" "" [] } = none ∧
    sentFiles (messageDeleteHandler
      (demoDelete (NewDiscordMessage demoHttp (demoMessage "100" "hi" [demoAttachment "ok" 9])
        (1024 * 1024 * 10) 0).1)
      { Message := demoMessage "100" "" [] }) = some [{ Name := "f.png", Reader := some [1, 2] }] := by
  refine ⟨by decide, by decide, by decide, by decide, by decide, by decide⟩

/-! ## Theorems on `messageCreateHandler` -/

/-- C17, the code at a failing input: for a message of a user that is not a bot, in a cached
guild and channel, whose content is empty (an attachment-only message) or holds white space
only, `strings.Fields` returns no argument, and `messageCreateHandler`, having stored the
message, reads `args[0]` out of bounds and panics. A message with the content "hello" is
stored and nothing else happens. -/
theorem messageCreateHandler_panics_on_blank :
    (demoMessage "100" "" [demoAttachment "ok" 3]).Author.Bot = false ∧
    Fields "" = [] ∧
    messageCreateHandler demoCreate
      { Message := demoMessage "100" "" [demoAttachment "ok" 3] } 0 = none ∧
    Fields "  " = [] ∧
    messageCreateHandler demoCreate { Message := demoMessage "100" "  " [] } 0 = none ∧
    messageCreateHandler demoCreate { Message := demoMessage "100" "hello" [] } 0 =
      some [CreateEffect.SetMessage (demoRecord "100" "hello")] := by
  refine ⟨by decide, by decide, by decide, by decide, by decide, by decide⟩

/-! ## Theorems on the member-join handlers -/

/-- C14, as the code has it: when the decoding of the joining user's identifier fails,
`GuildMemberAddHandler` of `main.go` returns at that point and makes no call, so no
"User joined" entry is emitted; `guildMemberAddHandler` of `bot/events.go` does not abort on
a failed decode: whatever `ParseSnowflake` returns, with the guild cached it makes exactly
one call, which sends the entry titled "User joined" to the join log channel. -/
theorem memberAdd_on_failed_decode (m : GuildMemberAdd) :
    (∀ (c : JoinMainContext) (e : NumError),
      snowflakeTime m.Member.User.ID = Except.error e → GuildMemberAddHandler c m = []) ∧
    (∀ (c : JoinContext) (g : Guild), c.StateGuild m.Member.GuildID = Except.ok g →
      ∃ embed, guildMemberAddHandler c m = [ApiCall.ChannelMessageSendEmbed c.JoinLog embed] ∧
        embed.Title = "User joined") := by
  constructor
  · intro c e he
    unfold GuildMemberAddHandler
    cases c.SetMember m.Member with
    | some _ => rfl
    | none =>
      cases c.StateGuild m.Member.GuildID with
      | error _ => rfl
      | ok g => simp only [he]
  · intro c g hg
    unfold guildMemberAddHandler
    simp only [hg]
    exact ⟨_, rfl, rfl⟩

/-- Witness for C14: the identifier "abc" does not decode; the handler of `main.go` makes no
call for it, and the handler of `bot/events.go` sends one entry. -/
theorem memberAdd_on_failed_decode_witness :
    snowflakeTime (demoJoin "abc").Member.User.ID = Except.error NumError.ErrSyntax ∧
    GuildMemberAddHandler demoJoinMain (demoJoin "abc") = [] ∧
    demoJoinBot.StateGuild (demoJoin "abc").Member.GuildID = Except.ok demoGuild ∧
    ∃ embed, guildMemberAddHandler demoJoinBot (demoJoin "abc") =
        [ApiCall.ChannelMessageSendEmbed demoJoinBot.JoinLog embed] ∧
      embed.Title = "User joined" :=
  ⟨by rfl,
   (memberAdd_on_failed_decode (demoJoin "abc")).1 demoJoinMain NumError.ErrSyntax (by rfl),
   rfl,
   (memberAdd_on_failed_decode (demoJoin "abc")).2 demoJoinBot demoGuild rfl⟩

/-- C14 as stated fails: for the malformed identifier "abc" the handler of `main.go` emits
no "User joined" entry at all, while for a well-formed one it emits it; and the handler of
`bot/events.go`, whose `ParseSnowflake` reports an error for "abc", emits the entry with a
creation date field filled from the result of the failed decode. -/
theorem memberAdd_malformed_counterexample :
    snowflakeTime "abc" = Except.error NumError.ErrSyntax ∧
    GuildMemberAddHandler demoJoinMain (demoJoin "abc") = [] ∧
    (GuildMemberAddHandler demoJoinMain (demoJoin "175928847299117063")).map
      (fun call => call.embed.Title) = ["User joined"] ∧
    (demoJoinBot.ParseSnowflake "abc").2 = some "invalid" ∧
    (guildMemberAddHandler demoJoinBot (demoJoin "abc")).map
      (fun call => call.embed.Fields.map (fun f => (f.Name, f.Value))) =
      [[("User", "<@abc>\nu#0001 (abc)"), ("Creation date", "<t:0:R>")]] := by
  refine ⟨by rfl, by decide, by decide, by decide, by decide⟩

/-! ## Lemmas on `strings.Join` and the loop over the roles -/

theorem utf8ByteSize_append (a b : String) :
    (a ++ b).utf8ByteSize = a.utf8ByteSize + b.utf8ByteSize := by
  cases a with
  | mk as =>
    cases b with
    | mk bs =>
      show String.utf8ByteSize ⟨as ++ bs⟩ = _
      simp only [String.utf8ByteSize_mk, String.utf8Len_append]

theorem Join_snoc (p : List String) (r sep : String) :
    Join (p ++ [r]) sep = if p = [] then r else Join p sep ++ sep ++ r := by
  induction p with
  | nil => rfl
  | cons a p ih =>
    cases p with
    | nil => simp [Join]
    | cons b q =>
      have hne : (b :: q) ≠ [] := List.cons_ne_nil b q
      rw [if_neg hne] at ih
      have ha : (a :: b :: q) ≠ [] := List.cons_ne_nil a _
      rw [if_neg ha]
      show Join (a :: (b :: (q ++ [r]))) sep = _
      rw [Join]
      have hcons : b :: (q ++ [r]) = (b :: q) ++ [r] := rfl
      rw [hcons, ih, Join]
      simp only [String.append_assoc]

theorem Join_snoc_le (p : List String) (r sep : String) :
    (Join p sep).utf8ByteSize ≤ (Join (p ++ [r]) sep).utf8ByteSize := by
  rw [Join_snoc]
  by_cases hp : p = []
  · subst hp
    simp [Join, String.utf8ByteSize]
  · rw [if_neg hp, utf8ByteSize_append, utf8ByteSize_append]
    omega

theorem Join_append_le (p s : List String) (sep : String) :
    (Join p sep).utf8ByteSize ≤ (Join (p ++ s) sep).utf8ByteSize := by
  induction s generalizing p with
  | nil => simp
  | cons x s ih =>
    have h1 := Join_snoc_le p x sep
    have h2 := ih (p ++ [x])
    have heq : p ++ [x] ++ s = p ++ x :: s := by simp
    rw [heq] at h2
    omega

theorem Join_prefix_le (p q : List String) (sep : String) (h : p <+: q) :
    (Join p sep).utf8ByteSize ≤ (Join q sep).utf8ByteSize := by
  obtain ⟨s, rfl⟩ := h
  exact Join_append_le p s sep

theorem shownLoop_spec (rest shown : List String) :
    ∃ t, shownLoop rest shown = shown ++ t ∧ t <+: rest ∧
      ((Join shown ", ").utf8ByteSize ≤ 760 → (Join (shown ++ t) ", ").utf8ByteSize ≤ 760) ∧
      (t = rest ∨ ∃ r, (t ++ [r]) <+: rest ∧
        (Join (shown ++ (t ++ [r])) ", ").utf8ByteSize > 760) := by
  induction rest generalizing shown with
  | nil => exact ⟨[], by simp [shownLoop], List.prefix_refl _, by simp, Or.inl rfl⟩
  | cons r rest ih =>
    by_cases hc : (Join (shown ++ [r]) ", ").utf8ByteSize > 760
    · refine ⟨[], by simp [shownLoop, hc], List.nil_prefix, by simp, Or.inr ⟨r, ?_, ?_⟩⟩
      · exact ⟨rest, rfl⟩
      · simpa using hc
    · obtain ⟨t, ht, hpre, hbound, hmax⟩ := ih (shown ++ [r])
      refine ⟨r :: t, ?_, ?_, ?_, ?_⟩
      · rw [shownLoop, if_neg hc, ht]
        simp
      · exact (List.prefix_cons_inj r).mpr hpre
      · intro _
        have := hbound (by omega)
        simpa using this
      · rcases hmax with rfl | ⟨r2, hp2, hl2⟩
        · exact Or.inl rfl
        · refine Or.inr ⟨r2, ?_, ?_⟩
          · exact (List.prefix_cons_inj r).mpr hp2
          · simpa using hl2

/-! ## Theorems on `guildMemberRemoveHandler` -/

/-- C18: for a member found in a cached guild, `guildMemberRemoveHandler` sends the embed
with the field "Roles" and removes the member record. For an empty role list the field is
"None". For a non-empty one the shown mentions are a prefix of the role mentions in stored
order whose ", "-joined text is at most 760 bytes long, no longer prefix has such a text,
and the field is that text, followed by " and N more" exactly when some roles are omitted,
`N` being their number, so that the shown count plus `N` is the total count. -/
theorem guildMemberRemoveHandler_roles (c : RemoveContext) (m : GuildMemberRemove)
    (g : Guild) (mem : Member)
    (hg : c.StateGuild m.Member.GuildID = Except.ok g)
    (hm : c.GetMember m.Member.GuildID m.Member.User.ID = Except.ok mem) :
    (∃ embed, guildMemberRemoveHandler c m =
        [RemoveEffect.ChannelMessageSendEmbed c.LeaveLog embed,
         RemoveEffect.DeleteMember m.Member.GuildID m.Member.User.ID] ∧
      embed.Fields.getLast? = some { Name := "Roles", Value := rolesValue mem.Roles } ∧
      sentRoles (guildMemberRemoveHandler c m) = some (rolesValue mem.Roles)) ∧
    (mem.Roles = [] → rolesValue mem.Roles = "None") ∧
    (mem.Roles ≠ [] →
      shownLoop (roleMentions mem.Roles) [] <+: roleMentions mem.Roles ∧
      (Join (shownLoop (roleMentions mem.Roles) []) ", ").utf8ByteSize ≤ 760 ∧
      (∀ p, p <+: roleMentions mem.Roles → (Join p ", ").utf8ByteSize ≤ 760 →
        p.length ≤ (shownLoop (roleMentions mem.Roles) []).length) ∧
      rolesValue mem.Roles =
        Join (shownLoop (roleMentions mem.Roles) []) ", " ++
          (if (shownLoop (roleMentions mem.Roles) []).length < (roleMentions mem.Roles).length then
            " and " ++ toString ((roleMentions mem.Roles).length -
              (shownLoop (roleMentions mem.Roles) []).length) ++ " more"
           else "") ∧
      (shownLoop (roleMentions mem.Roles) []).length +
        ((roleMentions mem.Roles).length - (shownLoop (roleMentions mem.Roles) []).length) =
          (roleMentions mem.Roles).length) := by
  refine ⟨?_, ?_, ?_⟩
  · unfold guildMemberRemoveHandler
    simp only [hg, hm]
    exact ⟨_, rfl, by simp, by simp [sentRoles]⟩
  · intro h
    simp [h, rolesValue, roleMentions]
  · intro hne
    obtain ⟨t, ht, hpre, hbound, hmax⟩ := shownLoop_spec (roleMentions mem.Roles) []
    rw [List.nil_append] at ht
    have hzero : (Join ([] : List String) ", ").utf8ByteSize ≤ 760 := by decide
    have hb := hbound hzero
    rw [List.nil_append] at hb
    have hlen : t.length ≤ (roleMentions mem.Roles).length := hpre.length_le
    have hpos : ¬ ((roleMentions mem.Roles).length ≤ 0) := by
      simp only [roleMentions, List.length_map, Nat.le_zero_eq, List.length_eq_zero]
      exact hne
    rw [ht]
    refine ⟨hpre, hb, ?_, ?_, by omega⟩
    · intro p hp hpb
      by_contra hlt
      rw [not_le] at hlt
      rcases hmax with rfl | ⟨r, hr, hl⟩
      · have := hp.length_le
        omega
      · simp only [List.nil_append] at hl
        have hle : (t ++ [r]).length ≤ p.length := by simp; omega
        have hsub : (t ++ [r]) <+: p := List.prefix_of_prefix_length_le hr hp hle
        have := Join_prefix_le (t ++ [r]) p ", " hsub
        omega
    · unfold rolesValue
      simp only [hpos, if_false, ht]
      by_cases heq : t.length = (roleMentions mem.Roles).length
      · have h1 : ¬ (t.length < (roleMentions mem.Roles).length) := by omega
        simp [heq]
      · have h1 : t.length < (roleMentions mem.Roles).length := by omega
        simp [heq, h1]

/-- Witness for C18: a member with the roles 1 and 22 leaves; both mentions are shown and
nothing is appended. -/
theorem guildMemberRemoveHandler_roles_witness :
    (demoRemove ["1", "22"]).StateGuild (demoJoin "42").Member.GuildID = Except.ok demoGuild ∧
    sentRoles (guildMemberRemoveHandler (demoRemove ["1", "22"])
      { Member := (demoJoin "42").Member }) = some "<@&1>, <@&22>" ∧
    rolesValue ["1", "22"] = "<@&1>, <@&22>" ∧
    shownLoop (roleMentions ["1", "22"]) [] <+: roleMentions ["1", "22"] :=
  ⟨rfl, by decide, by decide,
   ((guildMemberRemoveHandler_roles (demoRemove ["1", "22"]) { Member := (demoJoin "42").Member }
      demoGuild
      { GuildID := "1",
        User := { ID := "42", Username := "u", Discriminator := "0001", Avatar := "", Bot := false },
        Roles := ["1", "22"] } rfl rfl).2.2 (by decide)).1⟩

end FunctionalLogger
